import Mathlib

/-!
Verification of the hevy-notion-sync repository.

This file gives a shallow embedding, in Lean 4, of the parts of the
repository that the specification's claims are about:

* the JavaScript value conventions the code relies on (truthiness of
  numbers and strings, `x || fallback` defaulting, `Math.round`);
* the Convex document store (`convex/schema.ts`) as lists of rows plus a
  fresh-id counter;
* the reconciler mutations of `convex/sync.ts` (`upsertWorkout`,
  `markWorkoutDeleted`, `markWorkoutSynced`, `upsertRoutine`,
  `updateSyncState`) and the stat computation of `convex/hevy.ts`
  (`calculateWorkoutStats`);
* the incremental sync driver of `convex/hevy.ts` (`incrementalSync`);
* the Notion mirror push of `convex/notion.ts` (`syncToNotion`'s
  per-workout body, the routine-folder push of `syncRoutinesToNotion`,
  and the `batchProcess` helper), with the Notion HTTP API abstracted as
  a page store plus an oracle deciding which HTTP calls succeed;
* the HTTP entry points of `convex/http.ts`.

Numbers are modelled as `Rat` (JS numbers in the arithmetic the claims
touch are exact decimals), nullable fields as `Option`, and the opaque
ids handed out by Convex and Notion as `Nat` counters.
-/

/-! ## JavaScript value conventions -/

/-- Truthiness of a JS number: `0` (and `NaN`, not modelled) is falsy. -/
def truthyNum (q : ℚ) : Bool := q != 0

/-- Truthiness of a nullable JS number (`number | null | undefined`). -/
def truthyOptNum (q : Option ℚ) : Bool :=
  match q with
  | none => false
  | some x => truthyNum x

/-- Truthiness of a JS string: the empty string is falsy. -/
def truthyStr (s : String) : Bool := s != ""

/-- Truthiness of a nullable JS string. -/
def truthyOptStr (s : Option String) : Bool :=
  match s with
  | none => false
  | some x => truthyStr x

/-- Truthiness of a nullable JS integer (used for Hevy folder ids). -/
def truthyOptInt (i : Option ℤ) : Bool :=
  match i with
  | none => false
  | some x => x != 0

/-- JS `s || fallback` on a nullable string. -/
def jsOrStr (s : Option String) (fallback : String) : String :=
  if truthyOptStr s then s.getD fallback else fallback

/-- JS `x || undefined` on a string: empty strings collapse to `undefined`. -/
def jsStrOrUndef (s : String) : Option String :=
  if truthyStr s then some s else none

/-- JS `x || undefined` on a nullable string. -/
def jsOptStrOrUndef (s : Option String) : Option String :=
  if truthyOptStr s then s else none

/-- JS `x || undefined` on a nullable number: `null`, `undefined` and `0`
all collapse to `undefined`. -/
def jsNumOrUndef (q : Option ℚ) : Option ℚ :=
  if truthyOptNum q then q else none

/-- JS `Math.round`: round half toward positive infinity. -/
def jsRound (q : ℚ) : ℤ := ⌊q + 1 / 2⌋

/-- The repository's 1-decimal rounding idiom `Math.round(x * 10) / 10`. -/
def roundTo1 (q : ℚ) : ℚ := (jsRound (q * 10) : ℚ) / 10

/-! ## Hevy API payload shapes (convex/hevy.ts interfaces) -/

/-- One set inside a Hevy workout payload (`HevySet`). -/
structure HevySet where
  index : Nat
  type : String
  weight_kg : Option ℚ
  reps : Option ℚ
  distance_meters : Option ℚ
  duration_seconds : Option ℚ
  rpe : Option ℚ
  custom_metric : Option ℚ
  deriving DecidableEq

/-- One exercise inside a Hevy workout payload (`HevyExercise`). -/
structure HevyExercise where
  index : Nat
  title : String
  notes : String
  exercise_template_id : String
  superset_id : Option ℚ
  sets : List HevySet
  deriving DecidableEq

/-- A Hevy workout payload (`HevyWorkout`). `end_time` is optional because
deleted/partial payloads can omit it; the code guards it with truthiness. -/
structure HevyWorkout where
  id : String
  title : String
  description : String
  start_time : String
  end_time : Option String
  exercises : List HevyExercise
  deriving DecidableEq

/-! ## Workout stats (convex/hevy.ts `calculateWorkoutStats`, and the
identical inline loop of convex/sync.ts `upsertWorkout` lines 77-92) -/

/-- Aggregate stats derived from a workout's sets. -/
structure WorkoutStats where
  totalVolume : ℚ
  totalSets : Nat
  totalReps : ℚ
  deriving DecidableEq

/-- One iteration of the stats loop body:
`totalSets++; if (set.reps) { totalReps += set.reps; if (set.weight_kg) { totalVolume += set.weight_kg * set.reps; } }`. -/
def statsStep (acc : ℚ × Nat × ℚ) (s : HevySet) : ℚ × Nat × ℚ :=
  let vol := acc.1
  let cnt := acc.2.1 + 1
  let reps := acc.2.2
  if truthyOptNum s.reps then
    let r := s.reps.getD 0
    if truthyOptNum s.weight_kg then
      (vol + s.weight_kg.getD 0 * r, cnt, reps + r)
    else
      (vol, cnt, reps + r)
  else
    (vol, cnt, reps)

/-- `calculateWorkoutStats`: fold the loop body over every set of every
exercise, then round the volume to 1 decimal. -/
def calculateWorkoutStats (exercises : List HevyExercise) : WorkoutStats :=
  let acc := exercises.foldl (fun a e => e.sets.foldl statsStep a) (0, 0, 0)
  { totalVolume := roundTo1 acc.1, totalSets := acc.2.1, totalReps := acc.2.2 }

/-- The volume contribution of a single set: `weight * reps` when both are
truthy, `0` otherwise (in particular when either is `null`). -/
def setVolume (s : HevySet) : ℚ :=
  if truthyOptNum s.reps && truthyOptNum s.weight_kg then
    s.weight_kg.getD 0 * s.reps.getD 0
  else 0

/-- The reps contribution of a single set. -/
def setRepsContrib (s : HevySet) : ℚ :=
  if truthyOptNum s.reps then s.reps.getD 0 else 0

/-! ## Local store rows (convex/schema.ts) -/

/-- A row of the `workouts` table. `id` is the Convex-assigned document id
(modelled as a `Nat` drawn from the store's fresh-id counter). -/
structure WorkoutRow where
  id : Nat
  hevyId : String
  title : String
  description : Option String
  startTime : String
  endTime : Option String
  durationMinutes : Option ℤ
  totalVolume : ℚ
  totalSets : Nat
  totalReps : ℚ
  notionPageId : Option Nat
  syncedToNotion : Bool
  isDeleted : Bool
  deriving DecidableEq

/-- A row of the `exercises` table. -/
structure ExerciseRow where
  id : Nat
  workoutId : Nat
  hevyExerciseIndex : Nat
  exerciseTemplateId : String
  title : String
  notes : Option String
  supersetId : Option ℚ
  notionPageId : Option Nat
  syncedToNotion : Bool
  deriving DecidableEq

/-- A row of the `sets` table. -/
structure SetRow where
  id : Nat
  exerciseId : Nat
  workoutId : Nat
  setIndex : Nat
  setType : String
  weightKg : Option ℚ
  reps : Option ℚ
  distanceMeters : Option ℚ
  durationSeconds : Option ℚ
  rpe : Option ℚ
  customMetric : Option ℚ
  notionPageId : Option Nat
  syncedToNotion : Bool
  deriving DecidableEq

/-- The singleton `syncState` table's row shape. -/
structure SyncStateRow where
  lastSyncedAt : Option String
  lastEventTimestamp : Option String
  lastError : Option String
  syncInProgress : Bool
  deriving DecidableEq

/-- The workout side of the Convex document store: three row families plus
the fresh document-id counter. -/
structure DB where
  workouts : List WorkoutRow
  exercises : List ExerciseRow
  sets : List SetRow
  syncState : List SyncStateRow
  nextId : Nat
  deriving DecidableEq

/-! ## Reconciler mutations on workouts (convex/sync.ts) -/

/-- Duration computation of `upsertWorkout` lines 95-100 (and
`calculateDuration` in convex/hevy.ts): defined only when both timestamps
are truthy; `tm` abstracts the host's `new Date(s).getTime()` parser. -/
def calcDuration (tm : String → ℤ) (start_time : String) (end_time : Option String) :
    Option ℤ :=
  if truthyStr start_time && truthyOptStr end_time then
    some (jsRound (((tm (end_time.getD "") - tm start_time : ℤ) : ℚ) / 60000))
  else none

/-- Set row built by the child-insert loop of `upsertWorkout`. -/
def mkSetRow (exerciseId workoutId : Nat) (s : HevySet) (sid : Nat) : SetRow :=
  { id := sid
    exerciseId := exerciseId
    workoutId := workoutId
    setIndex := s.index
    setType := s.type
    weightKg := jsNumOrUndef s.weight_kg
    reps := jsNumOrUndef s.reps
    distanceMeters := jsNumOrUndef s.distance_meters
    durationSeconds := jsNumOrUndef s.duration_seconds
    rpe := jsNumOrUndef s.rpe
    customMetric := jsNumOrUndef s.custom_metric
    notionPageId := none
    syncedToNotion := false }

/-- Exercise row built by the child-insert loop of `upsertWorkout`. -/
def mkExerciseRow (workoutId : Nat) (e : HevyExercise) (exid : Nat) : ExerciseRow :=
  { id := exid
    workoutId := workoutId
    hevyExerciseIndex := e.index
    exerciseTemplateId := e.exercise_template_id
    title := e.title
    notes := jsStrOrUndef e.notes
    supersetId := jsNumOrUndef e.superset_id
    notionPageId := none
    syncedToNotion := false }

/-- The inner `for (const set of exercise.sets || [])` insert loop. -/
def insertSetRows (workoutId exerciseId : Nat) (sets : List HevySet) (db : DB) : DB :=
  match sets with
  | [] => db
  | s :: rest =>
    insertSetRows workoutId exerciseId rest
      { db with
        sets := db.sets ++ [mkSetRow exerciseId workoutId s db.nextId]
        nextId := db.nextId + 1 }

/-- The `for (const exercise of workout.exercises || [])` insert loop:
insert the exercise row, then its set rows. -/
def insertWorkoutChildren (workoutId : Nat) (exercises : List HevyExercise) (db : DB) : DB :=
  match exercises with
  | [] => db
  | e :: rest =>
    let db1 :=
      { db with
        exercises := db.exercises ++ [mkExerciseRow workoutId e db.nextId]
        nextId := db.nextId + 1 }
    insertWorkoutChildren workoutId rest (insertSetRows workoutId db.nextId e.sets db1)

/-- The scalar patch applied to an existing workout row by `upsertWorkout`
(lines 106-117). -/
def patchWorkoutScalars (tm : String → ℤ) (w : HevyWorkout) (r : WorkoutRow) : WorkoutRow :=
  { r with
    title := w.title
    description := jsStrOrUndef w.description
    startTime := w.start_time
    endTime := jsOptStrOrUndef w.end_time
    durationMinutes := calcDuration tm w.start_time w.end_time
    totalVolume := (calculateWorkoutStats w.exercises).totalVolume
    totalSets := (calculateWorkoutStats w.exercises).totalSets
    totalReps := (calculateWorkoutStats w.exercises).totalReps
    syncedToNotion := false
    isDeleted := false }

/-- The fresh workout row inserted by `upsertWorkout` (lines 139-151). -/
def newWorkoutRow (tm : String → ℤ) (w : HevyWorkout) (wid : Nat) : WorkoutRow :=
  { id := wid
    hevyId := w.id
    title := w.title
    description := jsStrOrUndef w.description
    startTime := w.start_time
    endTime := jsOptStrOrUndef w.end_time
    durationMinutes := calcDuration tm w.start_time w.end_time
    totalVolume := (calculateWorkoutStats w.exercises).totalVolume
    totalSets := (calculateWorkoutStats w.exercises).totalSets
    totalReps := (calculateWorkoutStats w.exercises).totalReps
    notionPageId := none
    syncedToNotion := false
    isDeleted := false }

/-- The child-deletion loop of `upsertWorkout` (lines 120-136), modelled by
its net effect: drop every exercise row of the workout and every set row
referencing one of those exercises (Convex document ids are unique, so
per-document deletion equals this filter). -/
def deleteWorkoutChildren (workoutId : Nat) (db : DB) : DB :=
  { db with
    exercises := db.exercises.filter (fun e => !(e.workoutId == workoutId))
    sets :=
      db.sets.filter (fun s =>
        !(((db.exercises.filter (fun e => e.workoutId == workoutId)).map (·.id)).contains
            s.exerciseId)) }

/-- `upsertWorkout`: look up by natural key `hevyId`; if found, patch the
scalar fields, delete all children, and reinsert them from the payload;
otherwise insert a fresh parent row and then the children. -/
def upsertWorkout (tm : String → ℤ) (w : HevyWorkout) (db : DB) : DB :=
  match db.workouts.find? (fun r => r.hevyId == w.id) with
  | some existing =>
    let db1 :=
      { db with
        workouts :=
          db.workouts.map (fun r =>
            if r.id == existing.id then patchWorkoutScalars tm w r else r) }
    insertWorkoutChildren existing.id w.exercises (deleteWorkoutChildren existing.id db1)
  | none =>
    let wid := db.nextId
    insertWorkoutChildren wid w.exercises
      { db with
        workouts := db.workouts ++ [newWorkoutRow tm w wid]
        nextId := wid + 1 }

/-- `markWorkoutDeleted`: find by natural key; if present, set the tombstone
and reset the mirror flag; silently no-op otherwise. -/
def markWorkoutDeleted (hevyId : String) (db : DB) : DB :=
  match db.workouts.find? (fun r => r.hevyId == hevyId) with
  | some existing =>
    { db with
      workouts :=
        db.workouts.map (fun r =>
          if r.id == existing.id then { r with isDeleted := true, syncedToNotion := false }
          else r) }
  | none => db

/-- `markWorkoutSynced`: record the mirror page id and set the mirror flag. -/
def markWorkoutSynced (workoutId notionPageId : Nat) (db : DB) : DB :=
  { db with
    workouts :=
      db.workouts.map (fun r =>
        if r.id == workoutId then
          { r with syncedToNotion := true, notionPageId := some notionPageId }
        else r) }

/-- `getUnsyncedWorkouts`: all workout rows whose mirror flag is false. -/
def getUnsyncedWorkouts (db : DB) : List WorkoutRow :=
  db.workouts.filter (fun r => r.syncedToNotion == false)

/-- `getSyncState`: the first (only) row of the singleton table. -/
def getSyncState (db : DB) : Option SyncStateRow :=
  db.syncState.head?

/-- Arguments of the `updateSyncState` mutation (all optional). -/
structure SyncStateArgs where
  lastSyncedAt : Option String := none
  lastEventTimestamp : Option String := none
  lastError : Option String := none
  syncInProgress : Option Bool := none

/-- `updateSyncState`: patch the existing singleton row (each field only
when its argument is truthy / provided), or insert a fresh row. -/
def updateSyncState (a : SyncStateArgs) (db : DB) : DB :=
  match db.syncState with
  | [] =>
    { db with
      syncState :=
        [{ lastSyncedAt := a.lastSyncedAt
           lastEventTimestamp := a.lastEventTimestamp
           lastError := a.lastError
           syncInProgress := a.syncInProgress.getD false }] }
  | s :: rest =>
    { db with
      syncState :=
        { lastSyncedAt := if truthyOptStr a.lastSyncedAt then a.lastSyncedAt else s.lastSyncedAt
          lastEventTimestamp :=
            if truthyOptStr a.lastEventTimestamp then a.lastEventTimestamp
            else s.lastEventTimestamp
          lastError := if a.lastError.isSome then a.lastError else s.lastError
          syncInProgress := a.syncInProgress.getD s.syncInProgress } :: rest }

/-! ## Views and invariants of the workout store -/

/-- The workout rows carrying a given natural key. -/
def workoutsWithKey (db : DB) (k : String) : List WorkoutRow :=
  db.workouts.filter (fun r => r.hevyId == k)

/-- The exercise rows owned by a workout document id. -/
def exercisesOf (db : DB) (workoutId : Nat) : List ExerciseRow :=
  db.exercises.filter (fun e => e.workoutId == workoutId)

/-- How many set rows reference a given exercise document id. -/
def countSetsOf (sets : List SetRow) (exerciseId : Nat) : Nat :=
  (sets.filter (fun s => s.exerciseId == exerciseId)).length

/-- Per-exercise set counts of a workout, in row order. -/
def setCountsOf (db : DB) (workoutId : Nat) : List Nat :=
  (exercisesOf db workoutId).map (fun e => countSetsOf db.sets e.id)

/-- The workout row with a given document id. -/
def findWorkoutRow (db : DB) (workoutId : Nat) : Option WorkoutRow :=
  db.workouts.find? (fun r => r.id == workoutId)

/-- Store invariant: every document id and every child-to-parent reference
is below the fresh-id counter (Convex hands out fresh ids). -/
def DBInv (db : DB) : Prop :=
  (∀ r ∈ db.workouts, r.id < db.nextId) ∧
    (∀ e ∈ db.exercises, e.workoutId < db.nextId) ∧
    ∀ s ∈ db.sets, s.exerciseId < db.nextId

/-! ## Title parsing and classification helpers (convex/sync.ts lines 320-439) -/

/-- Decimal digits to a number (`parseInt(m, 10)` on a digit run). -/
def digitsToNat (cs : List Char) : Nat :=
  cs.foldl (fun n c => n * 10 + (c.toNat - 48)) 0

/-- Whether `key` occurs at the head of `cs`. -/
def listStartsWith : List Char → List Char → Bool
  | [], _ => true
  | _ :: _, [] => false
  | k :: ks, c :: cs => k == c && listStartsWith ks cs

/-- Try the alternation keys at one position: on a key match, skip
whitespace and read a digit run; an empty digit run backtracks to the next
alternative (JS regex alternation semantics). -/
def matchKeyNumAt (keys : List (List Char)) (cs : List Char) : Option Nat :=
  match keys with
  | [] => none
  | k :: ks =>
    if listStartsWith k cs then
      let ds := ((cs.drop k.length).dropWhile (fun c => c.isWhitespace)).takeWhile
        (fun c => c.isDigit)
      if ds.isEmpty then matchKeyNumAt ks cs else some (digitsToNat ds)
    else matchKeyNumAt ks cs

/-- Leftmost-match scan of `(?:alt1|alt2|...)\s*(\d+)` over a string. -/
def scanKeyNum (keys : List (List Char)) : List Char → Option Nat
  | [] => none
  | c :: cs =>
    match matchKeyNumAt keys (c :: cs) with
    | some n => some n
    | none => scanKeyNum keys cs

/-- `parseWeekNumber`: first match of `(?:week|w)\s*(\d+)` case-insensitive. -/
def parseWeekNumber (title : String) : Option Nat :=
  scanKeyNum [['w', 'e', 'e', 'k'], ['w']] title.toLower.toList

/-- `parseDayNumber`: first match of `(?:day|d|#)\s*(\d+)` case-insensitive. -/
def parseDayNumber (title : String) : Option Nat :=
  scanKeyNum [['d', 'a', 'y'], ['d'], ['#']] title.toLower.toList

/-- JS `String.prototype.includes` (membership of a non-empty substring). -/
def strIncludes (s sub : String) : Bool :=
  (s.splitOn sub).length > 1

/-- `detectDayType`: first-match-wins keyword scan of the routine title. -/
def detectDayType (title : String) : Option String :=
  let t := title.toLower
  if strIncludes t "squat" then some "Squat"
  else if strIncludes t "bench" then some "Bench"
  else if strIncludes t "deadlift" then some "Deadlift"
  else if strIncludes t "press" && !strIncludes t "bench" then some "Press"
  else if strIncludes t "upper" then some "Upper"
  else if strIncludes t "lower" then some "Lower"
  else if strIncludes t "pull" then some "Pull"
  else if strIncludes t "push" then some "Push"
  else none

/-- `detectExerciseRole`: index 0 is always "Main Lift"; accessory keywords
win next; indices 1 and 2 default to "Variation"; otherwise "Accessory". -/
def detectExerciseRole (index : Nat) (title : String) : String :=
  let t := title.toLower
  if index == 0 then "Main Lift"
  else if
      strIncludes t "curl" || strIncludes t "extension" || strIncludes t "raise" ||
        strIncludes t "fly" || strIncludes t "kickback" || strIncludes t "calf" ||
        strIncludes t "ab " || strIncludes t "crunch" || strIncludes t "plank" then
    "Accessory"
  else if index == 1 || index == 2 then "Variation"
  else "Accessory"

/-- `detectMuscleGroup`: ordered keyword scan of the exercise title. -/
def detectMuscleGroup (title : String) : Option String :=
  let t := title.toLower
  if strIncludes t "bench" || strIncludes t "chest" || strIncludes t "fly" ||
      strIncludes t "pec" then some "Chest"
  else if strIncludes t "row" || strIncludes t "pull" || strIncludes t "lat" ||
      strIncludes t "back" || strIncludes t "deadlift" then some "Back"
  else if strIncludes t "shoulder" || strIncludes t "press" || strIncludes t "raise" ||
      strIncludes t "delt" then some "Shoulders"
  else if strIncludes t "squat" || strIncludes t "leg" || strIncludes t "quad" ||
      strIncludes t "ham" || strIncludes t "glute" || strIncludes t "lunge" ||
      strIncludes t "calf" then some "Legs"
  else if strIncludes t "curl" || strIncludes t "bicep" then some "Biceps"
  else if strIncludes t "tricep" || strIncludes t "pushdown" ||
      strIncludes t "extension" then some "Triceps"
  else if strIncludes t "ab" || strIncludes t "core" || strIncludes t "crunch" ||
      strIncludes t "plank" then some "Core"
  else none

/-! ## Routine payloads and rows (convex/hevy.ts, convex/schema.ts) -/

/-- One planned set of a Hevy routine payload (`HevyRoutineSet`). -/
structure HevyRoutineSet where
  index : Nat
  type : String
  weight_kg : Option ℚ
  reps : Option ℚ
  distance_meters : Option ℚ
  duration_seconds : Option ℚ
  custom_metric : Option ℚ
  deriving DecidableEq

/-- One exercise of a Hevy routine payload (`HevyRoutineExercise`). -/
structure HevyRoutineExercise where
  index : Nat
  title : String
  notes : String
  exercise_template_id : String
  superset_id : Option ℚ
  rest_seconds : Option ℚ
  sets : List HevyRoutineSet
  deriving DecidableEq

/-- A Hevy routine payload (`HevyRoutine`). -/
structure HevyRoutine where
  id : String
  title : String
  folder_id : Option ℤ
  updated_at : String
  created_at : String
  exercises : List HevyRoutineExercise
  deriving DecidableEq

/-- A row of the `routineFolders` table. -/
structure FolderRow where
  id : Nat
  hevyId : ℤ
  title : String
  index : Nat
  weekNumber : Option Nat
  sortOrder : Nat
  updatedAt : String
  notionPageId : Option Nat
  syncedToNotion : Bool
  deriving DecidableEq

/-- A row of the `routines` table. -/
structure RoutineRow where
  id : Nat
  hevyId : String
  folderId : Option Nat
  hevyFolderId : Option ℤ
  title : String
  dayNumber : Option Nat
  weekNumber : Option Nat
  sortOrder : Nat
  dayType : Option String
  updatedAt : String
  notionPageId : Option Nat
  syncedToNotion : Bool
  deriving DecidableEq

/-- A row of the `routineExercises` table. -/
structure RoutineExerciseRow where
  id : Nat
  routineId : Nat
  index : Nat
  exerciseTemplateId : String
  title : String
  notes : Option String
  supersetId : Option ℚ
  restSeconds : Option ℚ
  targetSets : Nat
  targetReps : Option ℚ
  targetWeightKg : Option ℚ
  weekNumber : Option Nat
  dayNumber : Option Nat
  exerciseOrder : Nat
  globalSortOrder : Nat
  exerciseRole : String
  muscleGroup : Option String
  notionPageId : Option Nat
  syncedToNotion : Bool
  deriving DecidableEq

/-- A row of the `routineSets` table. -/
structure RoutineSetRow where
  id : Nat
  routineExerciseId : Nat
  routineId : Nat
  index : Nat
  setType : String
  targetReps : Option ℚ
  targetWeightKg : Option ℚ
  targetDistanceMeters : Option ℚ
  targetDurationSeconds : Option ℚ
  notionPageId : Option Nat
  syncedToNotion : Bool
  deriving DecidableEq

/-- The routine side of the Convex document store. -/
structure RDB where
  routineFolders : List FolderRow
  routines : List RoutineRow
  routineExercises : List RoutineExerciseRow
  routineSets : List RoutineSetRow
  nextId : Nat
  deriving DecidableEq

/-! ## upsertRoutine (convex/sync.ts lines 477-595) -/

/-- JS `x || undefined` on a nullable integer. -/
def jsIntOrUndef (i : Option ℤ) : Option ℤ :=
  if truthyOptInt i then i else none

/-- Routine set row built by the inner insert loop of `upsertRoutine`. -/
def mkRoutineSetRow (routineExerciseId routineId : Nat) (s : HevyRoutineSet) (sid : Nat) :
    RoutineSetRow :=
  { id := sid
    routineExerciseId := routineExerciseId
    routineId := routineId
    index := s.index
    setType := s.type
    targetReps := jsNumOrUndef s.reps
    targetWeightKg := jsNumOrUndef s.weight_kg
    targetDistanceMeters := jsNumOrUndef s.distance_meters
    targetDurationSeconds := jsNumOrUndef s.duration_seconds
    notionPageId := none
    syncedToNotion := false }

/-- Routine exercise row built by the insert loop of `upsertRoutine`,
including the denormalized sorting and classification fields. -/
def mkRoutineExerciseRow (routineId : Nat) (weekNumber dayNumber : Option Nat)
    (e : HevyRoutineExercise) (exid : Nat) : RoutineExerciseRow :=
  { id := exid
    routineId := routineId
    index := e.index
    exerciseTemplateId := e.exercise_template_id
    title := e.title
    notes := jsStrOrUndef e.notes
    supersetId := jsNumOrUndef e.superset_id
    restSeconds := jsNumOrUndef e.rest_seconds
    targetSets := e.sets.length
    targetReps := jsNumOrUndef (e.sets.head?.bind (fun s => s.reps))
    targetWeightKg := none
    weekNumber := weekNumber
    dayNumber := dayNumber
    exerciseOrder := e.index
    globalSortOrder := weekNumber.getD 0 * 10000 + dayNumber.getD 0 * 100 + e.index
    exerciseRole := detectExerciseRole e.index e.title
    muscleGroup := detectMuscleGroup e.title
    notionPageId := none
    syncedToNotion := false }

/-- The inner routine-set insert loop of `upsertRoutine`. -/
def insertRoutineSetRows (routineId routineExerciseId : Nat) (sets : List HevyRoutineSet)
    (rdb : RDB) : RDB :=
  match sets with
  | [] => rdb
  | s :: rest =>
    insertRoutineSetRows routineId routineExerciseId rest
      { rdb with
        routineSets := rdb.routineSets ++ [mkRoutineSetRow routineExerciseId routineId s rdb.nextId]
        nextId := rdb.nextId + 1 }

/-- The routine-exercise insert loop of `upsertRoutine`. -/
def insertRoutineChildren (routineId : Nat) (weekNumber dayNumber : Option Nat)
    (exercises : List HevyRoutineExercise) (rdb : RDB) : RDB :=
  match exercises with
  | [] => rdb
  | e :: rest =>
    let rdb1 :=
      { rdb with
        routineExercises :=
          rdb.routineExercises ++ [mkRoutineExerciseRow routineId weekNumber dayNumber e rdb.nextId]
        nextId := rdb.nextId + 1 }
    insertRoutineChildren routineId weekNumber dayNumber rest
      (insertRoutineSetRows routineId rdb.nextId e.sets rdb1)

/-- The scalar record written by `upsertRoutine` for the parent routine
(both the patch and the fresh insert use the same `routineData`). -/
def routineScalars (r : HevyRoutine) (folderId : Option Nat) (weekNumber dayNumber : Option Nat)
    (x : RoutineRow) : RoutineRow :=
  { x with
    hevyId := r.id
    folderId := folderId
    hevyFolderId := jsIntOrUndef r.folder_id
    title := r.title
    dayNumber := dayNumber
    weekNumber := weekNumber
    sortOrder := weekNumber.getD 0 * 100 + dayNumber.getD 0
    dayType := detectDayType r.title
    updatedAt := r.updated_at
    syncedToNotion := false }

/-- The child-deletion loop of `upsertRoutine`, as its net effect. -/
def deleteRoutineChildren (routineId : Nat) (rdb : RDB) : RDB :=
  { rdb with
    routineExercises := rdb.routineExercises.filter (fun e => !(e.routineId == routineId))
    routineSets :=
      rdb.routineSets.filter (fun s =>
        !(((rdb.routineExercises.filter (fun e => e.routineId == routineId)).map (·.id)).contains
            s.routineExerciseId)) }

/-- The folder lookup of `upsertRoutine` (lines 483-492): only performed
when `routine.folder_id` is truthy. -/
def routineFolderFor (folders : List FolderRow) (r : HevyRoutine) : Option FolderRow :=
  if truthyOptInt r.folder_id then
    folders.find? (fun f => f.hevyId == r.folder_id.getD 0)
  else none

/-- `upsertRoutine`: resolve the parent folder (for the inherited week
number), parse the day fields, then patch-or-insert the routine and
cascade-replace its exercises and sets. -/
def upsertRoutine (r : HevyRoutine) (rdb : RDB) : RDB :=
  let folder? : Option FolderRow := routineFolderFor rdb.routineFolders r
  let folderId : Option Nat := folder?.map (·.id)
  let folderWeekNumber : Option Nat := folder?.bind (·.weekNumber)
  let dayNumber := parseDayNumber r.title
  match rdb.routines.find? (fun x => x.hevyId == r.id) with
  | some existing =>
    let rdb1 :=
      { rdb with
        routines :=
          rdb.routines.map (fun x =>
            if x.id == existing.id then
              routineScalars r folderId folderWeekNumber dayNumber x
            else x) }
    insertRoutineChildren existing.id folderWeekNumber dayNumber r.exercises
      (deleteRoutineChildren existing.id rdb1)
  | none =>
    let rid := rdb.nextId
    insertRoutineChildren rid folderWeekNumber dayNumber r.exercises
      { rdb with
        routines :=
          rdb.routines ++
            [routineScalars r folderId folderWeekNumber dayNumber
              { id := rid
                hevyId := r.id
                folderId := none
                hevyFolderId := none
                title := ""
                dayNumber := none
                weekNumber := none
                sortOrder := 0
                dayType := none
                updatedAt := ""
                notionPageId := none
                syncedToNotion := false }]
        nextId := rid + 1 }

/-- `markRoutineFolderSynced`. -/
def markRoutineFolderSynced (folderId notionPageId : Nat) (rdb : RDB) : RDB :=
  { rdb with
    routineFolders :=
      rdb.routineFolders.map (fun f =>
        if f.id == folderId then
          { f with syncedToNotion := true, notionPageId := some notionPageId }
        else f) }

/-! ## Views and invariants of the routine store -/

/-- The routine rows carrying a given natural key. -/
def routinesWithKey (rdb : RDB) (k : String) : List RoutineRow :=
  rdb.routines.filter (fun r => r.hevyId == k)

/-- The routine-exercise rows owned by a routine document id. -/
def routineExercisesOf (rdb : RDB) (routineId : Nat) : List RoutineExerciseRow :=
  rdb.routineExercises.filter (fun e => e.routineId == routineId)

/-- How many routine-set rows reference a routine-exercise document id. -/
def countRoutineSetsOf (sets : List RoutineSetRow) (routineExerciseId : Nat) : Nat :=
  (sets.filter (fun s => s.routineExerciseId == routineExerciseId)).length

/-- Per-exercise planned-set counts of a routine, in row order. -/
def routineSetCountsOf (rdb : RDB) (routineId : Nat) : List Nat :=
  (routineExercisesOf rdb routineId).map (fun e => countRoutineSetsOf rdb.routineSets e.id)

/-- Fresh-id invariant of the routine store, together with uniqueness of
the Convex-assigned routine document ids. -/
def RDBInv (rdb : RDB) : Prop :=
  (∀ r ∈ rdb.routines, r.id < rdb.nextId) ∧
    (rdb.routines.map (fun r => r.id)).Nodup ∧
    (∀ e ∈ rdb.routineExercises, e.routineId < rdb.nextId) ∧
    ∀ s ∈ rdb.routineSets, s.routineExerciseId < rdb.nextId

/-! ## Incremental sync (convex/hevy.ts `incrementalSync`) -/

/-- One element of the Hevy event feed (`HevyEvent`). -/
structure HevyEvent where
  type : String
  workout : Option HevyWorkout
  id : Option String
  deleted_at : Option String
  deriving DecidableEq

/-- One page of the event feed (`HevyEventsResponse`, items plus the page
count reported by the API). -/
structure EventsPage where
  page_count : Nat
  events : List HevyEvent
  deriving DecidableEq

/-- The pagination loop of `incrementalSync`: fetch page 1, then pages
`2 .. firstPage.page_count`, concatenating the event arrays. The `feed`
oracle abstracts a successful `fetchHevyEvents since page`. -/
def fetchAllEvents (feed : String → Nat → EventsPage) (since : String) : List HevyEvent :=
  let first := feed since 1
  first.events ++ ((List.range' 2 (first.page_count - 1)).map (fun p => (feed since p).events)).flatten

/-- The per-event branch of `incrementalSync` (update / delete / skip),
returning the new store and the (updated, deleted) count increments. -/
def processEvent (tm : String → ℤ) (e : HevyEvent) (db : DB) : DB × Nat × Nat :=
  if e.type == "updated" then
    match e.workout with
    | some w => (upsertWorkout tm w db, 1, 0)
    | none => (db, 0, 0)
  else if e.type == "deleted" then
    match e.id with
    | some i => if truthyStr i then (markWorkoutDeleted i db, 0, 1) else (db, 0, 0)
    | none => (db, 0, 0)
  else (db, 0, 0)

/-- The event loop of `incrementalSync`. -/
def processEvents (tm : String → ℤ) : List HevyEvent → DB → DB × Nat × Nat
  | [], db => (db, 0, 0)
  | e :: rest, db =>
    let r1 := processEvent tm e db
    let r2 := processEvents tm rest r1.1
    (r2.1, r1.2.1 + r2.2.1, r1.2.2 + r2.2.2)

/-- Result object of `incrementalSync`. -/
structure IncResult where
  success : Bool
  eventsProcessed : Nat
  updated : Nat
  deleted : Nat
  deriving DecidableEq

/-- The cursor read of `incrementalSync`:
`syncState?.lastEventTimestamp || "1970-01-01T00:00:00Z"`. -/
def sinceOf (db : DB) : String :=
  jsOrStr ((getSyncState db).bind (fun s => s.lastEventTimestamp)) "1970-01-01T00:00:00Z"

/-- `incrementalSync`: abort on a missing API key; otherwise read the
cursor, fetch and process all event pages, and persist `now` (the wall
clock at the end of the pass) as both `lastSyncedAt` and the new cursor. -/
def incrementalSync (tm : String → ℤ) (apiKey : Option String) (now : String)
    (feed : String → Nat → EventsPage) (db : DB) : Except String (DB × IncResult) :=
  match apiKey with
  | none => .error "HEVY_API_KEY not configured"
  | some _ =>
    let events := fetchAllEvents feed (sinceOf db)
    let r := processEvents tm events db
    let db2 :=
      updateSyncState
        { lastSyncedAt := some now, lastEventTimestamp := some now } r.1
    .ok (db2,
      { success := true, eventsProcessed := events.length, updated := r.2.1, deleted := r.2.2 })

/-! ## Notion mirror model (convex/notion.ts) -/

/-- A Notion page as the mirror push observes it: which database it lives
in, the value of its natural-key property (`"Hevy ID"` for workout pages,
`"Hevy Folder ID"` rendered as a string for program pages, absent for
child pages), and whether it is archived. -/
structure MirrorPage where
  id : Nat
  dbId : String
  key : Option String
  archived : Bool
  deriving DecidableEq

/-- The mirror state: pages plus a fresh page-id counter. -/
structure Mirror where
  pages : List MirrorPage
  nextPageId : Nat
  deriving DecidableEq

/-- Environment of a mirror pass: the optional `NOTION_TOKEN` and an
oracle deciding whether the n-th HTTP call of the pass succeeds. -/
structure NotionEnv where
  token : Option String
  httpOk : Nat → Bool

/-- Network-facing state threaded through a pass: the mirror plus the
index of the next HTTP call. -/
structure NetSt where
  mirror : Mirror
  calls : Nat
  deriving DecidableEq

/-- `notionRequest`: throw `NOTION_TOKEN not configured` before any fetch
when the token is absent; otherwise the call consumes one oracle slot and
either succeeds or throws a Notion API error. -/
def notionCall (env : NotionEnv) (n : NetSt) : NetSt × Option String :=
  match env.token with
  | none => (n, some "NOTION_TOKEN not configured")
  | some _ =>
    if env.httpOk n.calls then ({ n with calls := n.calls + 1 }, none)
    else ({ n with calls := n.calls + 1 }, some "Notion API error")

/-- `createPage`: on success a fresh page is appended to the database. -/
def createPage (env : NotionEnv) (dbId : String) (key : Option String) (n : NetSt) :
    NetSt × Except String Nat :=
  match notionCall env n with
  | (n1, some e) => (n1, .error e)
  | (n1, none) =>
    ({ n1 with
        mirror :=
          { pages :=
              n1.mirror.pages ++ [{ id := n1.mirror.nextPageId, dbId := dbId, key := key, archived := false }]
            nextPageId := n1.mirror.nextPageId + 1 } },
      .ok n1.mirror.nextPageId)

/-- `updatePage` (property patch): rewrites the page's properties, in
particular its natural-key property. -/
def updatePageKeyed (env : NotionEnv) (pageId : Nat) (key : Option String) (n : NetSt) :
    NetSt × Option String :=
  match notionCall env n with
  | (n1, some e) => (n1, some e)
  | (n1, none) =>
    ({ n1 with
        mirror :=
          { n1.mirror with
            pages :=
              n1.mirror.pages.map (fun p => if p.id == pageId then { p with key := key } else p) } },
      none)

/-- `archivePage` (`PATCH {archived: true}`). -/
def archivePage (env : NotionEnv) (pageId : Nat) (n : NetSt) : NetSt × Option String :=
  match notionCall env n with
  | (n1, some e) => (n1, some e)
  | (n1, none) =>
    ({ n1 with
        mirror :=
          { n1.mirror with
            pages :=
              n1.mirror.pages.map (fun p => if p.id == pageId then { p with archived := true } else p) } },
      none)

/-- `queryDatabase` with the natural-key property filter: ids of the live
pages of the database whose key property equals the filter value. -/
def queryKeyPages (env : NotionEnv) (dbId key : String) (n : NetSt) :
    NetSt × Except String (List Nat) :=
  match notionCall env n with
  | (n1, some e) => (n1, .error e)
  | (n1, none) =>
    (n1,
      .ok
        (((n1.mirror.pages.filter (fun p => p.dbId == dbId && p.key == some key && !p.archived)).map
            (fun p => p.id))))

/-- The set-page creation loop of `syncToNotion` (lines 258-280). -/
def syncSetPages (env : NotionEnv) (setsDbId : String) (sets : List SetRow) (n : NetSt) :
    NetSt × Option String :=
  match sets with
  | [] => (n, none)
  | _ :: rest =>
    match createPage env setsDbId none n with
    | (n1, .error e) => (n1, some e)
    | (n1, .ok _) => syncSetPages env setsDbId rest n1

/-- The exercise-page creation loop of `syncToNotion` (lines 221-281):
fetch the sets of the exercise from the store, create the exercise page,
then its set pages. -/
def syncExercisePages (env : NotionEnv) (exercisesDbId setsDbId : String)
    (exs : List ExerciseRow) (db : DB) (n : NetSt) : NetSt × Option String :=
  match exs with
  | [] => (n, none)
  | e :: rest =>
    let sets := db.sets.filter (fun s => s.exerciseId == e.id)
    match createPage env exercisesDbId none n with
    | (n1, .error err) => (n1, some err)
    | (n1, .ok _) =>
      match syncSetPages env setsDbId sets n1 with
      | (n2, some err) => (n2, some err)
      | (n2, none) => syncExercisePages env exercisesDbId setsDbId rest db n2

/-- The per-workout body of `syncToNotion`'s try block (lines 164-293):
archive tombstoned workouts that already have a page; otherwise adopt a
stored or searched page id (or create a fresh page), recreate the child
pages, and mark the workout synced. The returned `Option String` is the
caught exception, if any. -/
def processWorkout (env : NotionEnv) (workoutsDbId exercisesDbId setsDbId : String)
    (w : WorkoutRow) (db : DB) (n : NetSt) : DB × NetSt × Option String :=
  match (if w.isDeleted then w.notionPageId else none) with
  | some pid =>
    match archivePage env pid n with
    | (n1, some e) => (db, n1, some e)
    | (n1, none) => (markWorkoutSynced w.id pid db, n1, none)
  | none =>
    let step1 : NetSt × Except String (Option Nat) :=
      match w.notionPageId with
      | some pid => (n, .ok (some pid))
      | none =>
        match queryKeyPages env workoutsDbId w.hevyId n with
        | (n1, .error e) => (n1, .error e)
        | (n1, .ok ids) => (n1, .ok ids.head?)
    match step1 with
    | (n1, .error e) => (db, n1, some e)
    | (n1, .ok found?) =>
      let step2 : NetSt × Except String Nat :=
        match found? with
        | some pid =>
          match updatePageKeyed env pid (some w.hevyId) n1 with
          | (n2, some e) => (n2, .error e)
          | (n2, none) => (n2, .ok pid)
        | none => createPage env workoutsDbId (some w.hevyId) n1
      match step2 with
      | (n2, .error e) => (db, n2, some e)
      | (n2, .ok pid) =>
        match syncExercisePages env exercisesDbId setsDbId (exercisesOf db w.id) db n2 with
        | (n3, some e) => (db, n3, some e)
        | (n3, none) => (markWorkoutSynced w.id pid db, n3, none)

/-- The `for (const workout of workouts)` loop of `syncToNotion` with its
per-record try/catch: a failure increments the error count, a success the
synced count, and the loop always continues. -/
def syncWorkoutsLoop (env : NotionEnv) (workoutsDbId exercisesDbId setsDbId : String) :
    List WorkoutRow → DB → NetSt → (DB × NetSt) × Nat × Nat
  | [], db, n => ((db, n), 0, 0)
  | w :: ws, db, n =>
    match processWorkout env workoutsDbId exercisesDbId setsDbId w db n with
    | (db1, n1, none) =>
      let r := syncWorkoutsLoop env workoutsDbId exercisesDbId setsDbId ws db1 n1
      (r.1, r.2.1 + 1, r.2.2)
    | (db1, n1, some _) =>
      let r := syncWorkoutsLoop env workoutsDbId exercisesDbId setsDbId ws db1 n1
      (r.1, r.2.1, r.2.2 + 1)

/-- Result object of `syncToNotion`. -/
structure SyncToNotionResult where
  success : Bool
  synced : Nat
  errors : Nat
  total : Nat
  deriving DecidableEq

/-- `syncToNotion`: snapshot the unsynced workouts, run the loop, and
report `{success, synced, errors, total}`. The action itself never
throws: every failure inside the loop body, including the missing-token
configuration error raised by `notionRequest`, is caught per record. -/
def syncToNotion (env : NotionEnv) (workoutsDbId exercisesDbId setsDbId : String)
    (db : DB) (n : NetSt) : (DB × NetSt) × SyncToNotionResult :=
  let ws := getUnsyncedWorkouts db
  let r := syncWorkoutsLoop env workoutsDbId exercisesDbId setsDbId ws db n
  (r.1, { success := true, synced := r.2.1, errors := r.2.2, total := ws.length })

/-- The per-folder body of `syncRoutinesToNotion` step 1 (lines 550-571):
read the folder's routines (for the Routine Count property), create a page
in the Programs database unconditionally - no stored-page check and no
natural-key search - and mark the folder synced with the new page id. -/
def processRoutineFolder (env : NotionEnv) (programsDbId : String) (folder : FolderRow)
    (rdb : RDB) (n : NetSt) : RDB × NetSt × Option String :=
  match createPage env programsDbId (some (toString folder.hevyId)) n with
  | (n1, .error e) => (rdb, n1, some e)
  | (n1, .ok pid) => (markRoutineFolderSynced folder.id pid rdb, n1, none)

/-- The `searchResult.results[0]` step: the first live page of a database
matching the natural-key property filter. -/
def firstLiveMatch (m : Mirror) (dbId key : String) : Option MirrorPage :=
  (m.pages.filter (fun p => p.dbId == dbId && p.key == some key && !p.archived)).head?

/-- Live pages of a database whose natural-key property has a value. -/
def countKeyPages (m : Mirror) (dbId key : String) : Nat :=
  (m.pages.filter (fun p => p.dbId == dbId && p.key == some key && !p.archived)).length

/-- All pages of a database (live or archived). -/
def countPagesIn (m : Mirror) (dbId : String) : Nat :=
  (m.pages.filter (fun p => p.dbId == dbId)).length

/-! ## Bounded-concurrency batch helper (convex/notion.ts `batchProcess`) -/

/-- `batchProcess`: slice the items into consecutive groups of
`concurrency`, settle each group, collect fulfilled values in order and
count rejections, then move to the next group. The source loop advances
its index by `concurrency`, which does not terminate for
`concurrency = 0`; the model advances by at least one, and the theorems
about it assume the (always positive, in the repository 5/10/15/20)
bound is positive. -/
def batchProcess (proc : α → Except ε β) (concurrency : Nat) : List α → List β × Nat
  | [] => ([], 0)
  | x :: xs =>
    let batch := x :: xs.take (concurrency - 1)
    let settled := batch.map proc
    let fulfilled := settled.filterMap (fun r => r.toOption)
    let rejected := (settled.filter (fun r => !r.toOption.isSome)).length
    let rest := batchProcess proc concurrency (xs.drop (concurrency - 1))
    (fulfilled ++ rest.1, rejected + rest.2)
  termination_by items => items.length
  decreasing_by simp only [List.length_cons, List.length_drop]; omega

/-! ## HTTP entry points (convex/http.ts) -/

/-- Response body shapes the routes produce: a JSON-serialized action
result, the JSON object `{error: message}`, or plain text. -/
inductive RespBody
  | json (payload : String)
  | errJson (msg : String)
  | text (s : String)
  deriving DecidableEq

/-- An HTTP response (status plus body). -/
structure HttpRes where
  status : Nat
  body : RespBody
  deriving DecidableEq

/-- The parsed JSON body of a `POST /sync` request; `none` models a body
that failed to parse (`request.json().catch(() => ({}))`). -/
structure SyncReqBody where
  workoutsDbId : Option String := none
  exercisesDbId : Option String := none
  setsDbId : Option String := none

/-- The bearer check of both routes:
`if (expectedSecret && authHeader !== `Bearer ${expectedSecret}`) return 401`. -/
def bearerRejects (secret authHeader : Option String) : Bool :=
  truthyOptStr secret && !(authHeader == some ("Bearer " ++ secret.getD ""))

/-- The `POST /sync` route: bearer gate, then either the full pipeline
(when all three database ids are present in the body) or the incremental
sync; an exception from either action becomes a 500 with `{error}`. The
two actions are abstracted as `Except` oracles. -/
def syncRoute (secret authHeader : Option String) (body : Option SyncReqBody)
    (pipeline incremental : Except String String) : HttpRes :=
  if bearerRejects secret authHeader then { status := 401, body := .text "Unauthorized" }
  else
    let b := body.getD {}
    let act :=
      if truthyOptStr b.workoutsDbId && truthyOptStr b.exercisesDbId && truthyOptStr b.setsDbId
      then pipeline
      else incremental
    match act with
    | .ok v => { status := 200, body := .json v }
    | .error e => { status := 500, body := .errJson e }

/-- The `POST /full-sync` route: bearer gate, then the full resync action. -/
def fullSyncRoute (secret authHeader : Option String) (fullSync : Except String String) :
    HttpRes :=
  if bearerRejects secret authHeader then { status := 401, body := .text "Unauthorized" }
  else
    match fullSync with
    | .ok v => { status := 200, body := .json v }
    | .error e => { status := 500, body := .errJson e }

/-! ## Concrete instances used by the theorems and witnesses -/

/-- A trivial stand-in for the host's `Date.getTime` parser. -/
def tmZero : String → ℤ := fun _ => 0

/-- The null-weight set of the spec's worked volume example. -/
def specNullSet : HevySet :=
  { index := 1, type := "normal", weight_kg := none, reps := some 8,
    distance_meters := none, duration_seconds := none, rpe := none, custom_metric := none }

/-- The spec's worked volume example:
`[{weight:100,reps:5},{weight:null,reps:8},{weight:50,reps:10}]`. -/
def specVolumeSets : List HevySet :=
  [{ index := 0, type := "normal", weight_kg := some 100, reps := some 5,
     distance_meters := none, duration_seconds := none, rpe := none, custom_metric := none },
   specNullSet,
   { index := 2, type := "normal", weight_kg := some 50, reps := some 10,
     distance_meters := none, duration_seconds := none, rpe := none, custom_metric := none }]

/-- A one-exercise workout payload wrapping `specVolumeSets`. -/
def specVolumeExercises : List HevyExercise :=
  [{ index := 0, title := "Bench Press", notes := "", exercise_template_id := "tmpl-1",
     superset_id := none, sets := specVolumeSets }]

/-- A tombstoned, not-yet-mirrored workout row. -/
def c3Row : WorkoutRow :=
  { id := 0, hevyId := "w1", title := "T", description := none,
    startTime := "2024-01-01T10:00:00Z", endTime := none, durationMinutes := none,
    totalVolume := 0, totalSets := 0, totalReps := 0, notionPageId := none,
    syncedToNotion := false, isDeleted := true }

/-- A store holding only the tombstoned workout. -/
def c3DB : DB :=
  { workouts := [c3Row], exercises := [], sets := [], syncState := [], nextId := 1 }

/-- An `updated`-event payload for the same natural key `"w1"`. -/
def c3Payload : HevyWorkout :=
  { id := "w1", title := "T2", description := "", start_time := "2024-01-02T10:00:00Z",
    end_time := none, exercises := [] }

/-- The empty workout store. -/
def emptyDB : DB :=
  { workouts := [], exercises := [], sets := [], syncState := [], nextId := 0 }

/-- The empty routine store. -/
def emptyRDB : RDB :=
  { routineFolders := [], routines := [], routineExercises := [], routineSets := [],
    nextId := 0 }

/-- A small routine payload with one exercise of two planned sets. -/
def c1Routine : HevyRoutine :=
  { id := "r1", title := "Day 1 - Squat", folder_id := none, updated_at := "u",
    created_at := "c",
    exercises :=
      [{ index := 0, title := "Squat (Barbell)", notes := "", exercise_template_id := "t1",
         superset_id := none, rest_seconds := none,
         sets :=
           [{ index := 0, type := "normal", weight_kg := none, reps := some 5,
              distance_meters := none, duration_seconds := none, custom_metric := none },
            { index := 1, type := "normal", weight_kg := none, reps := some 5,
              distance_meters := none, duration_seconds := none, custom_metric := none }] }] }

/-- An empty mirror-network state. -/
def net0 : NetSt := { mirror := { pages := [], nextPageId := 0 }, calls := 0 }

/-- A mirror environment with no access token configured. -/
def c6Env : NotionEnv := { token := none, httpOk := fun _ => true }

/-- A mirror environment with a token and all HTTP calls succeeding. -/
def okEnv : NotionEnv := { token := some "tok", httpOk := fun _ => true }

/-- An unsynced, live workout row awaiting its first mirror push. -/
def c6Row : WorkoutRow :=
  { id := 0, hevyId := "w6", title := "T", description := none,
    startTime := "2024-01-01T10:00:00Z", endTime := none, durationMinutes := none,
    totalVolume := 0, totalSets := 0, totalReps := 0, notionPageId := none,
    syncedToNotion := false, isDeleted := false }

/-- A store holding only that unsynced workout. -/
def c6DB : DB :=
  { workouts := [c6Row], exercises := [], sets := [], syncState := [], nextId := 1 }

/-- An unsynced routine folder with no stored mirror page id. -/
def c5Folder : FolderRow :=
  { id := 0, hevyId := 7, title := "SBS Week 1", index := 0, weekNumber := some 1,
    sortOrder := 100, updatedAt := "u", notionPageId := none, syncedToNotion := false }

/-- A routine store holding only that folder. -/
def c5RDB : RDB :=
  { routineFolders := [c5Folder], routines := [], routineExercises := [], routineSets := [],
    nextId := 1 }

/-- A mirror that already holds a page for folder 7 in the Programs
database (for instance left over from a prior partially failed pass). -/
def c5Net : NetSt :=
  { mirror :=
      { pages := [{ id := 0, dbId := "programs", key := some "7", archived := false }]
        nextPageId := 1 }
    calls := 0 }

/-- A pre-existing live workout page in the mirror matching `c6Row`'s
natural key (as left by a prior partially failed pass). -/
def c5Page : MirrorPage := { id := 3, dbId := "wdb", key := some "w6", archived := false }

/-- A mirror network state holding only that page. -/
def c5WNet : NetSt :=
  { mirror := { pages := [c5Page], nextPageId := 4 }, calls := 0 }

/-- A tombstoned workout that was never mirrored (no stored page id). -/
def c10Row : WorkoutRow :=
  { id := 0, hevyId := "w10", title := "T", description := none,
    startTime := "2024-01-01T10:00:00Z", endTime := none, durationMinutes := none,
    totalVolume := 0, totalSets := 0, totalReps := 0, notionPageId := none,
    syncedToNotion := false, isDeleted := true }

/-- A store holding only that tombstoned workout. -/
def c10DB : DB :=
  { workouts := [c10Row], exercises := [], sets := [], syncState := [], nextId := 1 }

/-! ## Theorems -/

/-! ### Workout stats: closed forms (C2 support) -/

/-- One stats step adds the per-set contributions. -/
theorem statsStep_eq (acc : ℚ × Nat × ℚ) (s : HevySet) :
    statsStep acc s = (acc.1 + setVolume s, acc.2.1 + 1, acc.2.2 + setRepsContrib s) := by
  unfold statsStep setVolume setRepsContrib
  rcases h : truthyOptNum s.reps with _ | _ <;>
    rcases h2 : truthyOptNum s.weight_kg with _ | _ <;> simp [h, h2]

/-- Closed form of the stats fold over a list of sets. -/
theorem foldl_statsStep (sets : List HevySet) (acc : ℚ × Nat × ℚ) :
    sets.foldl statsStep acc =
      (acc.1 + (sets.map setVolume).sum, acc.2.1 + sets.length,
        acc.2.2 + (sets.map setRepsContrib).sum) := by
  induction sets generalizing acc with
  | nil => simp
  | cons s rest ih =>
    rw [List.foldl_cons, statsStep_eq, ih]
    simp only [List.map_cons, List.sum_cons, List.length_cons, Prod.mk.injEq]
    refine ⟨by ring, by omega, by ring⟩

/-- Closed form of `calculateWorkoutStats`: total volume is the rounded sum
of per-set volumes, total sets counts every set, total reps sums the truthy
reps. -/
theorem calculateWorkoutStats_eq (exercises : List HevyExercise) :
    calculateWorkoutStats exercises =
      { totalVolume := roundTo1 (((exercises.map (·.sets)).flatten.map setVolume).sum)
        totalSets := (exercises.map (·.sets)).flatten.length
        totalReps := ((exercises.map (·.sets)).flatten.map setRepsContrib).sum } := by
  have h : ∀ acc : ℚ × Nat × ℚ,
      exercises.foldl (fun a e => e.sets.foldl statsStep a) acc =
        (acc.1 + (((exercises.map (·.sets)).flatten.map setVolume).sum),
          acc.2.1 + (exercises.map (·.sets)).flatten.length,
          acc.2.2 + (((exercises.map (·.sets)).flatten.map setRepsContrib).sum)) := by
    intro acc
    induction exercises generalizing acc with
    | nil => simp
    | cons e rest ih =>
      rw [List.foldl_cons, foldl_statsStep, ih]
      simp only [List.map_cons, List.flatten_cons, List.map_append, List.sum_append,
        List.length_append, Prod.mk.injEq]
      refine ⟨by ring, by omega, by ring⟩
  simp only [calculateWorkoutStats, h (0, 0, 0)]
  simp

/-- Evaluation of the stats on the spec's worked example. -/
theorem specVolumeStats_eq :
    calculateWorkoutStats specVolumeExercises =
      { totalVolume := 1000, totalSets := 3, totalReps := 23 } := by
  rw [calculateWorkoutStats_eq]
  simp only [specVolumeExercises, specVolumeSets, specNullSet, List.map_cons, List.map_nil,
    List.flatten_cons, List.flatten_nil, List.append_nil, List.sum_cons, List.sum_nil,
    List.length_cons, List.length_nil, setVolume, setRepsContrib, truthyOptNum, truthyNum,
    Option.getD_some]
  norm_num [roundTo1, jsRound]

/-! ### C2 -/

/-- C2, counterexample. On the spec's own example
`[{weight:100,reps:5},{weight:null,reps:8},{weight:50,reps:10}]` the code
computes totalReps = 5 + 8 + 10 = 23: the null-weight set's reps are
counted (reps is present), so the claimed totalReps = 15 is false, while
volume and set count come out as claimed. -/
theorem C2_counterexample :
    calculateWorkoutStats specVolumeExercises =
        { totalVolume := 1000, totalSets := 3, totalReps := 23 } ∧
      (calculateWorkoutStats specVolumeExercises).totalReps ≠ 15 := by
  refine ⟨specVolumeStats_eq, ?_⟩
  rw [specVolumeStats_eq]
  norm_num

/-- C2, amended. For the spec's example list the aggregate stats are
totalVolume = 1000.0, totalSets = 3 and totalReps = 23 (every set whose
reps field is present and nonzero contributes its reps, even with null
weight); and in general a set with `weight = null` or `reps = null`
contributes 0 to the volume sum but still increments the set count, the
set count being the plain number of sets. -/
theorem C2_amended (s : HevySet) (hnull : s.weight_kg = none ∨ s.reps = none) :
    calculateWorkoutStats specVolumeExercises =
        { totalVolume := 1000, totalSets := 3, totalReps := 23 } ∧
      setVolume s = 0 ∧
      ∀ exercises : List HevyExercise,
        (calculateWorkoutStats exercises).totalSets =
            ((exercises.map (·.sets)).flatten).length ∧
          (calculateWorkoutStats exercises).totalVolume =
            roundTo1 (((exercises.map (·.sets)).flatten.map setVolume).sum) := by
  refine ⟨specVolumeStats_eq, ?_, fun exercises => ?_⟩
  · rcases hnull with h | h <;> simp [setVolume, truthyOptNum, h]
  · rw [calculateWorkoutStats_eq]
    exact ⟨rfl, rfl⟩

/-- C2 witness: the amended theorem applied to the example's null-weight
set. -/
theorem C2_amended_witness :
    specNullSet.weight_kg = none ∧ setVolume specNullSet = 0 :=
  ⟨rfl, (C2_amended specNullSet (Or.inl rfl)).2.1⟩

/-! ### List and store helper lemmas -/

/-- A member of a list of length at most one is the whole list. -/
theorem mem_length_le_one {α : Type} {l : List α} {a : α} (ha : a ∈ l) (hl : l.length ≤ 1) :
    l = [a] := by
  cases l with
  | nil => cases ha
  | cons b t =>
    cases t with
    | nil => rcases List.mem_singleton.mp ha with rfl; rfl
    | cons c t2 => simp at hl

/-- Set counts distribute over appending set rows. -/
theorem countSetsOf_append (l1 l2 : List SetRow) (n : Nat) :
    countSetsOf (l1 ++ l2) n = countSetsOf l1 n + countSetsOf l2 n := by
  simp [countSetsOf, List.filter_append]

/-- No set row counts toward an id above every stored reference. -/
theorem countSetsOf_eq_zero (sets : List SetRow) (n : Nat)
    (h : ∀ s ∈ sets, s.exerciseId < n) : countSetsOf sets n = 0 := by
  simp only [countSetsOf, List.length_eq_zero, List.filter_eq_nil_iff]
  intro s hs
  simp only [beq_iff_eq]
  exact Nat.ne_of_lt (h s hs)

/-- `insertSetRows` leaves the other tables alone and bumps the counter
once per set. -/
theorem insertSetRows_fields (wid exid : Nat) (ss : List HevySet) (db : DB) :
    (insertSetRows wid exid ss db).workouts = db.workouts ∧
      (insertSetRows wid exid ss db).exercises = db.exercises ∧
      (insertSetRows wid exid ss db).syncState = db.syncState ∧
      (insertSetRows wid exid ss db).nextId = db.nextId + ss.length := by
  induction ss generalizing db with
  | nil => simp [insertSetRows]
  | cons s rest ih =>
    simp only [insertSetRows]
    refine ⟨(ih _).1, (ih _).2.1, (ih _).2.2.1, ?_⟩
    rw [(ih _).2.2.2]
    simp only [List.length_cons]
    omega

/-- `insertSetRows` adds exactly its sets to the target exercise's count. -/
theorem insertSetRows_count_self (wid exid : Nat) (ss : List HevySet) (db : DB) :
    countSetsOf (insertSetRows wid exid ss db).sets exid =
      countSetsOf db.sets exid + ss.length := by
  induction ss generalizing db with
  | nil => simp [insertSetRows]
  | cons s rest ih =>
    simp only [insertSetRows]
    rw [ih]
    simp only [countSetsOf_append, List.length_cons]
    have : countSetsOf [mkSetRow exid wid s db.nextId] exid = 1 := by
      simp [countSetsOf, mkSetRow]
    omega

/-- `insertSetRows` does not change any other exercise's set count. -/
theorem insertSetRows_count_other (wid exid m : Nat) (hne : m ≠ exid) (ss : List HevySet)
    (db : DB) :
    countSetsOf (insertSetRows wid exid ss db).sets m = countSetsOf db.sets m := by
  induction ss generalizing db with
  | nil => simp [insertSetRows]
  | cons s rest ih =>
    simp only [insertSetRows]
    rw [ih]
    have : countSetsOf [mkSetRow exid wid s db.nextId] m = 0 := by
      simp [countSetsOf, mkSetRow, beq_iff_eq]
      exact fun e => absurd e.symm hne
    simp only [countSetsOf_append, this]
    omega

/-- Every set row after `insertSetRows` is an old row or references the
target exercise. -/
theorem insertSetRows_mem (wid exid : Nat) (ss : List HevySet) (db : DB) :
    ∀ s ∈ (insertSetRows wid exid ss db).sets, s ∈ db.sets ∨ s.exerciseId = exid := by
  induction ss generalizing db with
  | nil => intro s hs; exact Or.inl hs
  | cons s0 rest ih =>
    intro s hs
    rcases ih _ s hs with h | h
    · rcases List.mem_append.mp h with h2 | h2
      · exact Or.inl h2
      · rcases List.mem_singleton.mp h2 with rfl
        exact Or.inr rfl
    · exact Or.inr h

/-- `insertWorkoutChildren` leaves the workouts table alone. -/
theorem insertWorkoutChildren_workouts (wid : Nat) (exs : List HevyExercise) (db : DB) :
    (insertWorkoutChildren wid exs db).workouts = db.workouts := by
  induction exs generalizing db with
  | nil => rfl
  | cons e rest ih =>
    simp only [insertWorkoutChildren]
    rw [ih, (insertSetRows_fields _ _ _ _).1]

/-- `insertWorkoutChildren` leaves the sync-state table alone. -/
theorem insertWorkoutChildren_syncState (wid : Nat) (exs : List HevyExercise) (db : DB) :
    (insertWorkoutChildren wid exs db).syncState = db.syncState := by
  induction exs generalizing db with
  | nil => rfl
  | cons e rest ih =>
    simp only [insertWorkoutChildren]
    rw [ih, (insertSetRows_fields _ _ _ _).2.2.1]

/-- Main inventory of `insertWorkoutChildren`: the fresh exercise rows are
appended, all owned by the target workout, one per payload exercise, each
with exactly its payload's number of set rows; counts of pre-existing ids
are untouched, and the fresh-id discipline is preserved. -/
theorem insertWorkoutChildren_spec (wid : Nat) (exs : List HevyExercise) (db : DB)
    (hs : ∀ s ∈ db.sets, s.exerciseId < db.nextId) :
    db.nextId ≤ (insertWorkoutChildren wid exs db).nextId ∧
      (∀ s ∈ (insertWorkoutChildren wid exs db).sets,
        s.exerciseId < (insertWorkoutChildren wid exs db).nextId) ∧
      ∃ fresh : List ExerciseRow,
        (insertWorkoutChildren wid exs db).exercises = db.exercises ++ fresh ∧
          (∀ e ∈ fresh, e.workoutId = wid) ∧
          fresh.length = exs.length ∧
          fresh.map (fun e => countSetsOf (insertWorkoutChildren wid exs db).sets e.id) =
            exs.map (fun e => e.sets.length) ∧
          ∀ m, m < db.nextId →
            countSetsOf (insertWorkoutChildren wid exs db).sets m = countSetsOf db.sets m := by
  induction exs generalizing db with
  | nil =>
    exact ⟨Nat.le_refl _, hs, [], by simp [insertWorkoutChildren], by simp, by simp, by simp,
      fun m _ => rfl⟩
  | cons e rest ih =>
    simp only [insertWorkoutChildren]
    set db2 : DB :=
      insertSetRows wid db.nextId e.sets
        { db with
          exercises := db.exercises ++ [mkExerciseRow wid e db.nextId]
          nextId := db.nextId + 1 } with hdb2
    have hfields := insertSetRows_fields wid db.nextId e.sets
      { db with
        exercises := db.exercises ++ [mkExerciseRow wid e db.nextId]
        nextId := db.nextId + 1 }
    have hdb2e : db2.exercises = db.exercises ++ [mkExerciseRow wid e db.nextId] :=
      hfields.2.1
    have hdb2n : db2.nextId = db.nextId + 1 + e.sets.length := hfields.2.2.2
    have hcount0 : countSetsOf db2.sets db.nextId = e.sets.length := by
      rw [hdb2, insertSetRows_count_self]
      have h0 : countSetsOf db.sets db.nextId = 0 := countSetsOf_eq_zero _ _ hs
      simp [h0]
    have hcountm : ∀ m, m < db.nextId → countSetsOf db2.sets m = countSetsOf db.sets m := by
      intro m hm
      rw [hdb2, insertSetRows_count_other _ _ _ (Nat.ne_of_lt hm)]
    have hs2 : ∀ s ∈ db2.sets, s.exerciseId < db2.nextId := by
      intro s hsm
      rcases insertSetRows_mem _ _ _ _ s hsm with h | h
      · have := hs s h
        omega
      · omega
    obtain ⟨hn, hsets, fresh, hfe, hfwid, hflen, hfmap, hfpres⟩ := ih db2 hs2
    refine ⟨by omega, hsets, mkExerciseRow wid e db.nextId :: fresh, ?_, ?_, ?_, ?_, ?_⟩
    · rw [hfe, hdb2e, List.append_assoc]
      rfl
    · intro x hx
      rcases List.mem_cons.mp hx with rfl | hx2
      · rfl
      · exact hfwid x hx2
    · simp [hflen]
    · simp only [List.map_cons]
      rw [hfmap]
      have hid : (mkExerciseRow wid e db.nextId).id = db.nextId := rfl
      rw [hid, hfpres db.nextId (by omega), hcount0]
    · intro m hm
      rw [hfpres m (by omega), hcountm m hm]

/-- Filtering by a key that a map preserves commutes with the map. -/
theorem filter_key_map {α : Type} (l : List α) (f : α → α) (key : α → String) (k : String)
    (hf : ∀ x, key (f x) = key x) :
    (l.map f).filter (fun x => key x == k) = (l.filter (fun x => key x == k)).map f := by
  rw [List.filter_map]
  congr 1
  apply List.filter_congr
  intro x _
  simp [Function.comp, hf]

/-- Contract of a single `upsertWorkout` on a store satisfying the
invariants: exactly one row carries the payload's natural key, its derived
fields are the pure stat/duration functions of the payload, its children
are exactly the payload's children (one exercise row per payload exercise,
each with its payload's set count), and the invariants still hold. -/
theorem upsertWorkout_spec (tm : String → ℤ) (w : HevyWorkout) (db : DB)
    (hinv : DBInv db) (hkey : (workoutsWithKey db w.id).length ≤ 1) :
    ∃ r : WorkoutRow,
      workoutsWithKey (upsertWorkout tm w db) w.id = [r] ∧
        r.totalVolume = (calculateWorkoutStats w.exercises).totalVolume ∧
        r.totalSets = (calculateWorkoutStats w.exercises).totalSets ∧
        r.totalReps = (calculateWorkoutStats w.exercises).totalReps ∧
        r.durationMinutes = calcDuration tm w.start_time w.end_time ∧
        (exercisesOf (upsertWorkout tm w db) r.id).length = w.exercises.length ∧
        setCountsOf (upsertWorkout tm w db) r.id = w.exercises.map (fun e => e.sets.length) ∧
        DBInv (upsertWorkout tm w db) := by
  obtain ⟨hw, he, hsInv⟩ := hinv
  unfold upsertWorkout
  rcases hf : db.workouts.find? (fun r => r.hevyId == w.id) with _ | ex
  · -- not found: fresh parent then children
    have hnone : ∀ r ∈ db.workouts, ¬(r.hevyId == w.id) := by
      intro r hr
      have := List.find?_eq_none.mp hf r hr
      simpa using this
    simp only [hf]
    set db1 : DB :=
      { db with
        workouts := db.workouts ++ [newWorkoutRow tm w db.nextId]
        nextId := db.nextId + 1 } with hdb1
    have hs1 : ∀ s ∈ db1.sets, s.exerciseId < db1.nextId := by
      intro s hsm
      have := hsInv s hsm
      simp only [hdb1]
      omega
    obtain ⟨hn, hsets, fresh, hfe, hfwid, hflen, hfmap, hfpres⟩ :=
      insertWorkoutChildren_spec db.nextId w.exercises db1 hs1
    refine ⟨newWorkoutRow tm w db.nextId, ?_, rfl, rfl, rfl, rfl, ?_, ?_, ?_, ?_, ?_⟩
    · rw [workoutsWithKey, insertWorkoutChildren_workouts]
      show (db.workouts ++ [newWorkoutRow tm w db.nextId]).filter _ = _
      rw [List.filter_append, List.filter_eq_nil_iff.mpr hnone]
      simp [newWorkoutRow]
    · -- exercise count
      rw [exercisesOf, hfe]
      show ((db.exercises ++ fresh).filter _).length = _
      rw [List.filter_append]
      have h1 : db.exercises.filter
          (fun e => e.workoutId == (newWorkoutRow tm w db.nextId).id) = [] := by
        apply List.filter_eq_nil_iff.mpr
        intro e hm
        have := he e hm
        simp only [newWorkoutRow, beq_iff_eq]
        omega
      have h2 : fresh.filter (fun e => e.workoutId == (newWorkoutRow tm w db.nextId).id) =
          fresh := by
        apply List.filter_eq_self.mpr
        intro e hm
        simp [hfwid e hm, newWorkoutRow]
      rw [h1, h2]
      simpa using hflen
    · -- set counts
      rw [setCountsOf, exercisesOf, hfe]
      show ((db.exercises ++ fresh).filter _).map _ = _
      rw [List.filter_append]
      have h1 : db.exercises.filter
          (fun e => e.workoutId == (newWorkoutRow tm w db.nextId).id) = [] := by
        apply List.filter_eq_nil_iff.mpr
        intro e hm
        have := he e hm
        simp only [newWorkoutRow, beq_iff_eq]
        omega
      have h2 : fresh.filter (fun e => e.workoutId == (newWorkoutRow tm w db.nextId).id) =
          fresh := by
        apply List.filter_eq_self.mpr
        intro e hm
        simp [hfwid e hm, newWorkoutRow]
      rw [h1, h2]
      exact hfmap
    · -- workouts invariant
      intro r hr
      have hdb1w : db1.workouts = db.workouts ++ [newWorkoutRow tm w db.nextId] := rfl
      have hdb1n : db1.nextId = db.nextId + 1 := rfl
      rw [insertWorkoutChildren_workouts, hdb1w] at hr
      rcases List.mem_append.mp hr with h | h
      · have := hw r h
        omega
      · rcases List.mem_singleton.mp h with rfl
        show db.nextId < _
        omega
    · -- exercises invariant
      intro e hm
      have hdb1e : db1.exercises = db.exercises := rfl
      have hdb1n : db1.nextId = db.nextId + 1 := rfl
      rw [hfe, hdb1e] at hm
      rcases List.mem_append.mp hm with h | h
      · have := he e h
        omega
      · rw [hfwid e h]
        omega
    · exact hsets
  · -- found: patch, cascade delete, reinsert
    have hex_mem : ex ∈ db.workouts := List.mem_of_find?_eq_some hf
    have hex_key : (ex.hevyId == w.id) = true :=
      @List.find?_some _ (fun r => r.hevyId == w.id) ex db.workouts hf
    have hkey1 : workoutsWithKey db w.id = [ex] :=
      mem_length_le_one (List.mem_filter.mpr ⟨hex_mem, hex_key⟩) hkey
    simp only [hf]
    set f : WorkoutRow → WorkoutRow :=
      fun r => if r.id == ex.id then patchWorkoutScalars tm w r else r with hfdef
    have hf_key : ∀ r, (f r).hevyId = r.hevyId := by
      intro r
      simp only [hfdef]
      split
      · rfl
      · rfl
    have hf_id : ∀ r, (f r).id = r.id := by
      intro r
      simp only [hfdef]
      split
      · rfl
      · rfl
    set db1 : DB := { db with workouts := db.workouts.map f } with hdb1
    set db2 : DB := deleteWorkoutChildren ex.id db1 with hdb2
    have hdb2sets : ∀ s ∈ db2.sets, s ∈ db.sets := by
      intro s hsm
      simp only [hdb2, deleteWorkoutChildren, hdb1] at hsm
      exact (List.mem_filter.mp hsm).1
    have hdb2n : db2.nextId = db.nextId := rfl
    have hs2 : ∀ s ∈ db2.sets, s.exerciseId < db2.nextId := by
      intro s hsm
      rw [hdb2n]
      exact hsInv s (hdb2sets s hsm)
    obtain ⟨hn, hsets, fresh, hfe, hfwid, hflen, hfmap, hfpres⟩ :=
      insertWorkoutChildren_spec ex.id w.exercises db2 hs2
    have hdb2ex : db2.exercises = db.exercises.filter (fun e => !(e.workoutId == ex.id)) := rfl
    have hkeymap : workoutsWithKey (insertWorkoutChildren ex.id w.exercises db2) w.id =
        [patchWorkoutScalars tm w ex] := by
      rw [workoutsWithKey, insertWorkoutChildren_workouts]
      show (db.workouts.map f).filter _ = _
      rw [filter_key_map _ f (fun r => r.hevyId) w.id hf_key]
      have : db.workouts.filter (fun r => r.hevyId == w.id) = [ex] := hkey1
      rw [this]
      simp only [List.map_cons, List.map_nil, hfdef]
      rw [if_pos (by simp)]
    refine ⟨patchWorkoutScalars tm w ex, hkeymap, rfl, rfl, rfl, rfl, ?_, ?_, ?_, ?_, ?_⟩
    · -- exercise count
      rw [exercisesOf, hfe]
      show ((db2.exercises ++ fresh).filter _).length = _
      rw [List.filter_append]
      have h1 : db2.exercises.filter
          (fun e => e.workoutId == (patchWorkoutScalars tm w ex).id) = [] := by
        apply List.filter_eq_nil_iff.mpr
        intro e hm
        rw [hdb2ex] at hm
        have := (List.mem_filter.mp hm).2
        simp only [patchWorkoutScalars]
        simpa using this
      have h2 : fresh.filter
          (fun e => e.workoutId == (patchWorkoutScalars tm w ex).id) = fresh := by
        apply List.filter_eq_self.mpr
        intro e hm
        simp [hfwid e hm, patchWorkoutScalars]
      rw [h1, h2]
      simpa using hflen
    · -- set counts
      rw [setCountsOf, exercisesOf, hfe]
      show ((db2.exercises ++ fresh).filter _).map _ = _
      rw [List.filter_append]
      have h1 : db2.exercises.filter
          (fun e => e.workoutId == (patchWorkoutScalars tm w ex).id) = [] := by
        apply List.filter_eq_nil_iff.mpr
        intro e hm
        rw [hdb2ex] at hm
        have := (List.mem_filter.mp hm).2
        simp only [patchWorkoutScalars]
        simpa using this
      have h2 : fresh.filter
          (fun e => e.workoutId == (patchWorkoutScalars tm w ex).id) = fresh := by
        apply List.filter_eq_self.mpr
        intro e hm
        simp [hfwid e hm, patchWorkoutScalars]
      rw [h1, h2]
      exact hfmap
    · -- workouts invariant
      intro r hr
      rw [insertWorkoutChildren_workouts] at hr
      show r.id < _
      rcases List.mem_map.mp hr with ⟨r0, hr0, rfl⟩
      rw [hf_id r0]
      have := hw r0 hr0
      have hn1 : db2.nextId ≤ (insertWorkoutChildren ex.id w.exercises db2).nextId := hn
      rw [hdb2n] at hn1
      omega
    · -- exercises invariant
      intro e hm
      rw [hfe] at hm
      have hn1 : db2.nextId ≤ (insertWorkoutChildren ex.id w.exercises db2).nextId := hn
      rw [hdb2n] at hn1
      rcases List.mem_append.mp hm with h | h
      · rw [hdb2ex] at h
        have := he e (List.mem_filter.mp h).1
        omega
      · rw [hfwid e h]
        have := hw ex hex_mem
        omega
    · exact hsets

/-! ### C4 -/

/-- C4. Processing a `deleted` event for a natural key is a pure frame
update: the exercise, set and sync-state tables and the id counter are
untouched; when a workout with the key exists, the workouts table is
rewritten pointwise with exactly the two fields `isDeleted := true` and
`syncedToNotion := false` changed on the matched row (every other field
and every other row kept); when no workout matches, the whole store is
returned unchanged. -/
theorem C4_deleted_event_frame (h : String) (db : DB) :
    (markWorkoutDeleted h db).exercises = db.exercises ∧
      (markWorkoutDeleted h db).sets = db.sets ∧
      (markWorkoutDeleted h db).syncState = db.syncState ∧
      (markWorkoutDeleted h db).nextId = db.nextId ∧
      (markWorkoutDeleted h db).workouts.length = db.workouts.length ∧
      match db.workouts.find? (fun r => r.hevyId == h) with
      | none => markWorkoutDeleted h db = db
      | some existing =>
          (markWorkoutDeleted h db).workouts =
            db.workouts.map (fun r =>
              if r.id == existing.id then { r with isDeleted := true, syncedToNotion := false }
              else r) := by
  unfold markWorkoutDeleted
  rcases hf : db.workouts.find? (fun r => r.hevyId == h) with _ | ex <;> simp [hf]

/-! ### C3 support -/

/-- `upsertWorkout` never removes a workout row. -/
theorem upsertWorkout_workouts_length (tm : String → ℤ) (w : HevyWorkout) (db : DB) :
    db.workouts.length ≤ (upsertWorkout tm w db).workouts.length := by
  unfold upsertWorkout
  rcases hf : db.workouts.find? (fun r => r.hevyId == w.id) with _ | ex <;> simp only [hf]
  · rw [insertWorkoutChildren_workouts]
    show db.workouts.length ≤ (db.workouts ++ [newWorkoutRow tm w db.nextId]).length
    simp
  · rw [insertWorkoutChildren_workouts]
    show db.workouts.length ≤
      (db.workouts.map
        (fun r => if r.id == ex.id then patchWorkoutScalars tm w r else r)).length
    simp

/-! ### C3 -/

/-- C3, counterexample. A tombstoned, not-yet-mirrored workout is
resurrected by `upsertWorkout` on the same natural key: processing an
`updated` event for `"w1"` flips `isDeleted` back to false (line 116 of
convex/sync.ts patches `isDeleted: false`), so tombstoning is not
terminal under all operations. -/
theorem C3_counterexample :
    c3Row.isDeleted = true ∧ c3Row.syncedToNotion = false ∧
      (upsertWorkout tmZero c3Payload c3DB).workouts.map (fun r => (r.hevyId, r.isDeleted)) =
        [("w1", false)] := by
  refine ⟨rfl, rfl, ?_⟩
  decide

/-- C3, amended. For a tombstoned workout, the deletion and mirror-side
operations preserve the tombstone and retain the record:
`markWorkoutDeleted` keeps `isDeleted = true` on it and removes no row;
`markWorkoutSynced` (the only workout mutation the mirror pass performs,
including when archiving) leaves `isDeleted` unchanged and removes no
row; and `upsertWorkout` never removes a workout row. However the claim's
"no operation resets the flag" is false: `upsertWorkout` on the same
natural key sets `isDeleted := false` (see the counterexample). -/
theorem C3_amended (db : DB) (r : WorkoutRow) (hr : r ∈ db.workouts)
    (hd : r.isDeleted = true) (h : String) (wid pid : Nat) (tm : String → ℤ)
    (w : HevyWorkout) :
    (∃ r' ∈ (markWorkoutDeleted h db).workouts,
        r'.id = r.id ∧ r'.hevyId = r.hevyId ∧ r'.isDeleted = true) ∧
      (∃ r' ∈ (markWorkoutSynced wid pid db).workouts,
        r'.id = r.id ∧ r'.hevyId = r.hevyId ∧ r'.isDeleted = true) ∧
      (markWorkoutDeleted h db).workouts.length = db.workouts.length ∧
      (markWorkoutSynced wid pid db).workouts.length = db.workouts.length ∧
      db.workouts.length ≤ (upsertWorkout tm w db).workouts.length := by
  refine ⟨?_, ?_, ?_, ?_, upsertWorkout_workouts_length tm w db⟩
  · unfold markWorkoutDeleted
    rcases hfind : db.workouts.find? (fun x => x.hevyId == h) with _ | ex <;>
      simp only [hfind]
    · exact ⟨r, hr, rfl, rfl, hd⟩
    · refine ⟨_, List.mem_map_of_mem (fun x =>
        if x.id == ex.id then { x with isDeleted := true, syncedToNotion := false } else x) hr,
        ?_, ?_, ?_⟩ <;> (split <;> simp [hd])
  · refine ⟨_, List.mem_map_of_mem (fun x =>
      if x.id == wid then { x with syncedToNotion := true, notionPageId := some pid } else x)
      hr, ?_, ?_, ?_⟩ <;> (split <;> simp [hd])
  · unfold markWorkoutDeleted
    rcases hfind : db.workouts.find? (fun x => x.hevyId == h) with _ | ex <;>
      simp [hfind]
  · simp [markWorkoutSynced]

/-- C3 witness: the amended theorem applied to the tombstoned store. -/
theorem C3_amended_witness :
    c3Row ∈ c3DB.workouts ∧ c3Row.isDeleted = true ∧
      (∃ r' ∈ (markWorkoutDeleted "w1" c3DB).workouts,
        r'.id = c3Row.id ∧ r'.hevyId = c3Row.hevyId ∧ r'.isDeleted = true) :=
  ⟨by simp [c3DB], rfl,
    (C3_amended c3DB c3Row (by simp [c3DB]) rfl "w1" 0 0 tmZero c3Payload).1⟩

/-! ### Routine store lemmas (C1 support, routine half) -/

/-- Routine-set counts distribute over appending rows. -/
theorem countRoutineSetsOf_append (l1 l2 : List RoutineSetRow) (n : Nat) :
    countRoutineSetsOf (l1 ++ l2) n = countRoutineSetsOf l1 n + countRoutineSetsOf l2 n := by
  simp [countRoutineSetsOf, List.filter_append]

/-- No routine-set row counts toward an id above every stored reference. -/
theorem countRoutineSetsOf_eq_zero (sets : List RoutineSetRow) (n : Nat)
    (h : ∀ s ∈ sets, s.routineExerciseId < n) : countRoutineSetsOf sets n = 0 := by
  simp only [countRoutineSetsOf, List.length_eq_zero, List.filter_eq_nil_iff]
  intro s hs
  simp only [beq_iff_eq]
  exact Nat.ne_of_lt (h s hs)

/-- `insertRoutineSetRows` leaves the other tables alone and bumps the
counter once per set. -/
theorem insertRoutineSetRows_fields (rid exid : Nat) (ss : List HevyRoutineSet) (rdb : RDB) :
    (insertRoutineSetRows rid exid ss rdb).routineFolders = rdb.routineFolders ∧
      (insertRoutineSetRows rid exid ss rdb).routines = rdb.routines ∧
      (insertRoutineSetRows rid exid ss rdb).routineExercises = rdb.routineExercises ∧
      (insertRoutineSetRows rid exid ss rdb).nextId = rdb.nextId + ss.length := by
  induction ss generalizing rdb with
  | nil => simp [insertRoutineSetRows]
  | cons s rest ih =>
    simp only [insertRoutineSetRows]
    refine ⟨(ih _).1, (ih _).2.1, (ih _).2.2.1, ?_⟩
    rw [(ih _).2.2.2]
    simp only [List.length_cons]
    omega

/-- `insertRoutineSetRows` adds exactly its sets to the target exercise. -/
theorem insertRoutineSetRows_count_self (rid exid : Nat) (ss : List HevyRoutineSet)
    (rdb : RDB) :
    countRoutineSetsOf (insertRoutineSetRows rid exid ss rdb).routineSets exid =
      countRoutineSetsOf rdb.routineSets exid + ss.length := by
  induction ss generalizing rdb with
  | nil => simp [insertRoutineSetRows]
  | cons s rest ih =>
    simp only [insertRoutineSetRows]
    rw [ih]
    have : countRoutineSetsOf [mkRoutineSetRow exid rid s rdb.nextId] exid = 1 := by
      simp [countRoutineSetsOf, mkRoutineSetRow]
    simp only [countRoutineSetsOf_append, this, List.length_cons]
    omega

/-- `insertRoutineSetRows` does not change other exercises' counts. -/
theorem insertRoutineSetRows_count_other (rid exid m : Nat) (hne : m ≠ exid)
    (ss : List HevyRoutineSet) (rdb : RDB) :
    countRoutineSetsOf (insertRoutineSetRows rid exid ss rdb).routineSets m =
      countRoutineSetsOf rdb.routineSets m := by
  induction ss generalizing rdb with
  | nil => simp [insertRoutineSetRows]
  | cons s rest ih =>
    simp only [insertRoutineSetRows]
    rw [ih]
    have : countRoutineSetsOf [mkRoutineSetRow exid rid s rdb.nextId] m = 0 := by
      simp [countRoutineSetsOf, mkRoutineSetRow, beq_iff_eq]
      exact fun e => absurd e.symm hne
    simp only [countRoutineSetsOf_append, this]
    omega

/-- Every routine-set row after `insertRoutineSetRows` is old or fresh. -/
theorem insertRoutineSetRows_mem (rid exid : Nat) (ss : List HevyRoutineSet) (rdb : RDB) :
    ∀ s ∈ (insertRoutineSetRows rid exid ss rdb).routineSets,
      s ∈ rdb.routineSets ∨ s.routineExerciseId = exid := by
  induction ss generalizing rdb with
  | nil => intro s hs; exact Or.inl hs
  | cons s0 rest ih =>
    intro s hs
    rcases ih _ s hs with h | h
    · rcases List.mem_append.mp h with h2 | h2
      · exact Or.inl h2
      · rcases List.mem_singleton.mp h2 with rfl
        exact Or.inr rfl
    · exact Or.inr h

/-- `insertRoutineChildren` leaves the routines table alone. -/
theorem insertRoutineChildren_routines (rid : Nat) (wk day : Option Nat)
    (exs : List HevyRoutineExercise) (rdb : RDB) :
    (insertRoutineChildren rid wk day exs rdb).routines = rdb.routines := by
  induction exs generalizing rdb with
  | nil => rfl
  | cons e rest ih =>
    simp only [insertRoutineChildren]
    rw [ih, (insertRoutineSetRows_fields _ _ _ _).2.1]

/-- `insertRoutineChildren` leaves the folders table alone. -/
theorem insertRoutineChildren_folders (rid : Nat) (wk day : Option Nat)
    (exs : List HevyRoutineExercise) (rdb : RDB) :
    (insertRoutineChildren rid wk day exs rdb).routineFolders = rdb.routineFolders := by
  induction exs generalizing rdb with
  | nil => rfl
  | cons e rest ih =>
    simp only [insertRoutineChildren]
    rw [ih, (insertRoutineSetRows_fields _ _ _ _).1]

/-- Main inventory of `insertRoutineChildren`, mirroring
`insertWorkoutChildren_spec`. -/
theorem insertRoutineChildren_spec (rid : Nat) (wk day : Option Nat)
    (exs : List HevyRoutineExercise) (rdb : RDB)
    (hs : ∀ s ∈ rdb.routineSets, s.routineExerciseId < rdb.nextId) :
    rdb.nextId ≤ (insertRoutineChildren rid wk day exs rdb).nextId ∧
      (∀ s ∈ (insertRoutineChildren rid wk day exs rdb).routineSets,
        s.routineExerciseId < (insertRoutineChildren rid wk day exs rdb).nextId) ∧
      ∃ fresh : List RoutineExerciseRow,
        (insertRoutineChildren rid wk day exs rdb).routineExercises =
            rdb.routineExercises ++ fresh ∧
          (∀ e ∈ fresh, e.routineId = rid) ∧
          fresh.length = exs.length ∧
          fresh.map (fun e =>
              countRoutineSetsOf (insertRoutineChildren rid wk day exs rdb).routineSets e.id) =
            exs.map (fun e => e.sets.length) ∧
          ∀ m, m < rdb.nextId →
            countRoutineSetsOf (insertRoutineChildren rid wk day exs rdb).routineSets m =
              countRoutineSetsOf rdb.routineSets m := by
  induction exs generalizing rdb with
  | nil =>
    exact ⟨Nat.le_refl _, hs, [], by simp [insertRoutineChildren], by simp, by simp, by simp,
      fun m _ => rfl⟩
  | cons e rest ih =>
    simp only [insertRoutineChildren]
    set rdb2 : RDB :=
      insertRoutineSetRows rid rdb.nextId e.sets
        { rdb with
          routineExercises :=
            rdb.routineExercises ++ [mkRoutineExerciseRow rid wk day e rdb.nextId]
          nextId := rdb.nextId + 1 } with hrdb2
    have hfields := insertRoutineSetRows_fields rid rdb.nextId e.sets
      { rdb with
        routineExercises :=
          rdb.routineExercises ++ [mkRoutineExerciseRow rid wk day e rdb.nextId]
        nextId := rdb.nextId + 1 }
    have hrdb2e : rdb2.routineExercises =
        rdb.routineExercises ++ [mkRoutineExerciseRow rid wk day e rdb.nextId] :=
      hfields.2.2.1
    have hrdb2n : rdb2.nextId = rdb.nextId + 1 + e.sets.length := hfields.2.2.2
    have hcount0 : countRoutineSetsOf rdb2.routineSets rdb.nextId = e.sets.length := by
      rw [hrdb2, insertRoutineSetRows_count_self]
      have h0 : countRoutineSetsOf rdb.routineSets rdb.nextId = 0 :=
        countRoutineSetsOf_eq_zero _ _ hs
      simp [h0]
    have hcountm : ∀ m, m < rdb.nextId →
        countRoutineSetsOf rdb2.routineSets m = countRoutineSetsOf rdb.routineSets m := by
      intro m hm
      rw [hrdb2, insertRoutineSetRows_count_other _ _ _ (Nat.ne_of_lt hm)]
    have hs2 : ∀ s ∈ rdb2.routineSets, s.routineExerciseId < rdb2.nextId := by
      intro s hsm
      rcases insertRoutineSetRows_mem _ _ _ _ s hsm with h | h
      · have := hs s h
        omega
      · omega
    obtain ⟨hn, hsets, fresh, hfe, hfwid, hflen, hfmap, hfpres⟩ := ih rdb2 hs2
    refine ⟨by omega, hsets, mkRoutineExerciseRow rid wk day e rdb.nextId :: fresh,
      ?_, ?_, ?_, ?_, ?_⟩
    · rw [hfe, hrdb2e, List.append_assoc]
      rfl
    · intro x hx
      rcases List.mem_cons.mp hx with rfl | hx2
      · rfl
      · exact hfwid x hx2
    · simp [hflen]
    · simp only [List.map_cons]
      rw [hfmap]
      have hid : (mkRoutineExerciseRow rid wk day e rdb.nextId).id = rdb.nextId := rfl
      rw [hid, hfpres rdb.nextId (by omega), hcount0]
    · intro m hm
      rw [hfpres m (by omega), hcountm m hm]

/-- Mapping a function that fixes every element of a list is the identity. -/
theorem map_eq_self_of {α : Type} (l : List α) (f : α → α) (h : ∀ a ∈ l, f a = a) :
    l.map f = l := by
  induction l with
  | nil => rfl
  | cons a t ih => simp [h a (by simp), ih (fun b hb => h b (by simp [hb]))]

/-- Composing a map with a projection it preserves. -/
theorem map_comp_eq {α β : Type} (l : List α) (f : α → α) (g : α → β)
    (h : ∀ a, g (f a) = g a) : (l.map f).map g = l.map g := by
  induction l with
  | nil => rfl
  | cons a t ih => simp [h a, ih]

/-- Filtering after a patch-by-unique-id map: when the filter singles out
`ex` and the map only rewrites rows with `ex`'s id (unique in the list),
the filtered result is exactly the patched `ex` - even when the patch
rewrites the filtered key itself. -/
theorem filter_map_patch_eq {α : Type} (idf : α → Nat) (p : α → Bool) (f : α → α)
    (ex : α) (l : List α)
    (hnd : (l.map idf).Nodup) (hmem : ex ∈ l) (hfilter : l.filter p = [ex])
    (hfother : ∀ x, idf x ≠ idf ex → f x = x)
    (hpfex : p (f ex) = true) :
    (l.map f).filter p = [f ex] := by
  induction l with
  | nil => cases hmem
  | cons x t ih =>
    have hndt : (t.map idf).Nodup := (List.nodup_cons.mp (by simpa using hnd)).2
    have hxnotin : idf x ∉ t.map idf := (List.nodup_cons.mp (by simpa using hnd)).1
    by_cases hid : idf x = idf ex
    · have hxex : x = ex := by
        rcases List.mem_cons.mp hmem with h | h
        · exact h.symm
        · exact absurd (hid ▸ List.mem_map_of_mem idf h) hxnotin
      subst hxex
      have hpx : p x = true := by
        by_contra hpx
        rw [List.filter_cons, if_neg (by simpa using hpx)] at hfilter
        have hxmem : x ∈ t.filter p := by
          rw [hfilter]
          exact List.mem_singleton.mpr rfl
        exact hxnotin (List.mem_map_of_mem idf (List.mem_of_mem_filter hxmem))
      have hft : t.filter p = [] := by
        rw [List.filter_cons, if_pos (by simpa using hpx)] at hfilter
        simpa using hfilter
      have hmapt : t.map f = t :=
        map_eq_self_of t f (fun a ha => hfother a (fun hcontra =>
          hxnotin (hcontra ▸ List.mem_map_of_mem idf ha)))
      rw [List.map_cons, List.filter_cons, if_pos (by simpa using hpfex), hmapt, hft]
    · have hexmem : ex ∈ t := by
        rcases List.mem_cons.mp hmem with h | h
        · exact absurd (h ▸ rfl) hid
        · exact h
      have hpx : p x = false := by
        by_contra hpx
        rw [List.filter_cons, if_pos (by simpa using hpx)] at hfilter
        have : x = ex := by simpa using congrArg List.head? hfilter
        exact hid (this ▸ rfl)
      have hft : t.filter p = [ex] := by
        rw [List.filter_cons, if_neg (by simp [hpx])] at hfilter
        exact hfilter
      rw [List.map_cons, List.filter_cons, hfother x hid, if_neg (by simp [hpx])]
      exact ih hndt hexmem hft

/-- Contract of a single `upsertRoutine`, mirroring `upsertWorkout_spec`:
one routine row per natural key, its derived sorting/classification
fields are pure functions of the payload and of the (unchanged) folders
table, its children are exactly the payload's, and the invariants are
preserved. -/
theorem upsertRoutine_spec (r : HevyRoutine) (rdb : RDB) (hinv : RDBInv rdb)
    (hkey : (routinesWithKey rdb r.id).length ≤ 1) :
    ∃ q : RoutineRow,
      routinesWithKey (upsertRoutine r rdb) r.id = [q] ∧
        q.dayNumber = parseDayNumber r.title ∧
        q.weekNumber = (routineFolderFor rdb.routineFolders r).bind (fun x => x.weekNumber) ∧
        q.sortOrder =
          ((routineFolderFor rdb.routineFolders r).bind (fun x => x.weekNumber)).getD 0 * 100 +
            (parseDayNumber r.title).getD 0 ∧
        q.dayType = detectDayType r.title ∧
        (routineExercisesOf (upsertRoutine r rdb) q.id).length = r.exercises.length ∧
        routineSetCountsOf (upsertRoutine r rdb) q.id =
          r.exercises.map (fun e => e.sets.length) ∧
        (upsertRoutine r rdb).routineFolders = rdb.routineFolders ∧
        RDBInv (upsertRoutine r rdb) := by
  obtain ⟨hq, hnd, he, hsInv⟩ := hinv
  unfold upsertRoutine
  rcases hf : rdb.routines.find? (fun x => x.hevyId == r.id) with _ | ex <;> simp only [hf]
  · -- not found: fresh routine then children
    have hnone : ∀ x ∈ rdb.routines, ¬(x.hevyId == r.id) := by
      intro x hx
      simpa using List.find?_eq_none.mp hf x hx
    set wk : Option Nat := (routineFolderFor rdb.routineFolders r).bind (fun x => x.weekNumber)
      with hwk
    set fid : Option Nat := (routineFolderFor rdb.routineFolders r).map (fun x => x.id)
      with hfid
    set q : RoutineRow :=
      routineScalars r fid wk (parseDayNumber r.title)
        { id := rdb.nextId, hevyId := r.id, folderId := none, hevyFolderId := none,
          title := "", dayNumber := none, weekNumber := none, sortOrder := 0,
          dayType := none, updatedAt := "", notionPageId := none,
          syncedToNotion := false } with hqdef
    set rdb1 : RDB :=
      { rdb with routines := rdb.routines ++ [q], nextId := rdb.nextId + 1 } with hrdb1
    have hs1 : ∀ s ∈ rdb1.routineSets, s.routineExerciseId < rdb1.nextId := by
      intro s hsm
      have h1 := hsInv s hsm
      have h2 : rdb1.nextId = rdb.nextId + 1 := rfl
      omega
    obtain ⟨hn, hsets, fresh, hfe, hfwid, hflen, hfmap, hfpres⟩ :=
      insertRoutineChildren_spec rdb.nextId wk (parseDayNumber r.title) r.exercises rdb1 hs1
    have hrdb1n : rdb1.nextId = rdb.nextId + 1 := rfl
    have hqid : q.id = rdb.nextId := rfl
    refine ⟨q, ?_, rfl, rfl, rfl, rfl, ?_, ?_, ?_, ?_⟩
    · rw [routinesWithKey, insertRoutineChildren_routines]
      show (rdb.routines ++ [q]).filter _ = _
      rw [List.filter_append, List.filter_eq_nil_iff.mpr hnone]
      simp [hqdef, routineScalars]
    · rw [routineExercisesOf, hfe]
      show ((rdb.routineExercises ++ fresh).filter _).length = _
      rw [List.filter_append]
      have h1 : rdb.routineExercises.filter (fun e => e.routineId == q.id) = [] := by
        apply List.filter_eq_nil_iff.mpr
        intro e hm
        have := he e hm
        rw [hqid]
        simp only [beq_iff_eq]
        omega
      have h2 : fresh.filter (fun e => e.routineId == q.id) = fresh := by
        apply List.filter_eq_self.mpr
        intro e hm
        rw [hqid]
        simp [hfwid e hm]
      rw [h1, h2]
      simpa using hflen
    · rw [routineSetCountsOf, routineExercisesOf, hfe]
      show ((rdb.routineExercises ++ fresh).filter _).map _ = _
      rw [List.filter_append]
      have h1 : rdb.routineExercises.filter (fun e => e.routineId == q.id) = [] := by
        apply List.filter_eq_nil_iff.mpr
        intro e hm
        have := he e hm
        rw [hqid]
        simp only [beq_iff_eq]
        omega
      have h2 : fresh.filter (fun e => e.routineId == q.id) = fresh := by
        apply List.filter_eq_self.mpr
        intro e hm
        rw [hqid]
        simp [hfwid e hm]
      rw [h1, h2]
      exact hfmap
    · rw [insertRoutineChildren_folders]
    · refine ⟨?_, ?_, ?_, hsets⟩
      · intro x hx
        rw [insertRoutineChildren_routines] at hx
        show x.id < _
        rcases List.mem_append.mp hx with h | h
        · have := hq x h
          omega
        · rcases List.mem_singleton.mp h with rfl
          rw [hqid]
          omega
      · rw [insertRoutineChildren_routines]
        show ((rdb.routines ++ [q]).map _).Nodup
        rw [List.map_append]
        rw [List.nodup_append]
        refine ⟨hnd, by simp, ?_⟩
        intro a ha
        rcases List.mem_map.mp ha with ⟨x, hx, rfl⟩
        have := hq x hx
        simp only [List.map_cons, List.map_nil, List.mem_singleton, hqid]
        omega
      · intro e hm
        rw [hfe] at hm
        rcases List.mem_append.mp hm with h | h
        · have := he e h
          omega
        · rw [hfwid e h]
          omega
  · -- found: patch, cascade delete, reinsert
    have hex_mem : ex ∈ rdb.routines := List.mem_of_find?_eq_some hf
    have hex_key : (ex.hevyId == r.id) = true :=
      @List.find?_some _ (fun x => x.hevyId == r.id) ex rdb.routines hf
    have hkey1 : routinesWithKey rdb r.id = [ex] :=
      mem_length_le_one (List.mem_filter.mpr ⟨hex_mem, hex_key⟩) hkey
    set wk : Option Nat := (routineFolderFor rdb.routineFolders r).bind (fun x => x.weekNumber)
      with hwk
    set fid : Option Nat := (routineFolderFor rdb.routineFolders r).map (fun x => x.id)
      with hfid
    set f : RoutineRow → RoutineRow :=
      fun x => if x.id == ex.id then routineScalars r fid wk (parseDayNumber r.title) x else x
      with hfdef
    have hf_id : ∀ x, (f x).id = x.id := by
      intro x
      simp only [hfdef]
      split
      · rfl
      · rfl
    have hf_other : ∀ x, x.id ≠ ex.id → f x = x := by
      intro x hne
      simp only [hfdef]
      rw [if_neg (by simpa using hne)]
    set rdb1 : RDB := { rdb with routines := rdb.routines.map f } with hrdb1
    set rdb2 : RDB := deleteRoutineChildren ex.id rdb1 with hrdb2
    have hrdb2sets : ∀ s ∈ rdb2.routineSets, s ∈ rdb.routineSets := by
      intro s hsm
      simp only [hrdb2, deleteRoutineChildren, hrdb1] at hsm
      exact (List.mem_filter.mp hsm).1
    have hrdb2n : rdb2.nextId = rdb.nextId := rfl
    have hs2 : ∀ s ∈ rdb2.routineSets, s.routineExerciseId < rdb2.nextId := by
      intro s hsm
      rw [hrdb2n]
      exact hsInv s (hrdb2sets s hsm)
    obtain ⟨hn, hsets, fresh, hfe, hfwid, hflen, hfmap, hfpres⟩ :=
      insertRoutineChildren_spec ex.id wk (parseDayNumber r.title) r.exercises rdb2 hs2
    have hrdb2ex : rdb2.routineExercises =
        rdb.routineExercises.filter (fun e => !(e.routineId == ex.id)) := rfl
    have hkey1f : rdb.routines.filter (fun x => x.hevyId == r.id) = [ex] := hkey1
    have hfex : f ex = routineScalars r fid wk (parseDayNumber r.title) ex := by
      simp only [hfdef]
      rw [if_pos (by simp)]
    have hkeymap :
        routinesWithKey (insertRoutineChildren ex.id wk (parseDayNumber r.title) r.exercises rdb2)
          r.id = [f ex] := by
      rw [routinesWithKey, insertRoutineChildren_routines]
      show (rdb.routines.map f).filter _ = _
      exact filter_map_patch_eq (fun x => x.id) (fun x => x.hevyId == r.id) f ex rdb.routines
        hnd hex_mem hkey1f hf_other
        (by rw [hfex]; simp [routineScalars])
    have hfexid : (f ex).id = ex.id := hf_id ex
    refine ⟨f ex, hkeymap, by simp [hfex, routineScalars], by simp [hfex, routineScalars],
      by simp [hfex, routineScalars], by simp [hfex, routineScalars], ?_, ?_, ?_, ?_⟩
    · rw [routineExercisesOf, hfe]
      show ((rdb2.routineExercises ++ fresh).filter _).length = _
      rw [List.filter_append]
      have h1 : rdb2.routineExercises.filter (fun e => e.routineId == (f ex).id) = [] := by
        apply List.filter_eq_nil_iff.mpr
        intro e hm
        rw [hrdb2ex] at hm
        have := (List.mem_filter.mp hm).2
        rw [hfexid]
        simpa using this
      have h2 : fresh.filter (fun e => e.routineId == (f ex).id) = fresh := by
        apply List.filter_eq_self.mpr
        intro e hm
        rw [hfexid]
        simp [hfwid e hm]
      rw [h1, h2]
      simpa using hflen
    · rw [routineSetCountsOf, routineExercisesOf, hfe]
      show ((rdb2.routineExercises ++ fresh).filter _).map _ = _
      rw [List.filter_append]
      have h1 : rdb2.routineExercises.filter (fun e => e.routineId == (f ex).id) = [] := by
        apply List.filter_eq_nil_iff.mpr
        intro e hm
        rw [hrdb2ex] at hm
        have := (List.mem_filter.mp hm).2
        rw [hfexid]
        simpa using this
      have h2 : fresh.filter (fun e => e.routineId == (f ex).id) = fresh := by
        apply List.filter_eq_self.mpr
        intro e hm
        rw [hfexid]
        simp [hfwid e hm]
      rw [h1, h2]
      exact hfmap
    · rw [insertRoutineChildren_folders]
      rfl
    · refine ⟨?_, ?_, ?_, hsets⟩
      · intro x hx
        rw [insertRoutineChildren_routines] at hx
        show x.id < _
        rcases List.mem_map.mp hx with ⟨x0, hx0, rfl⟩
        rw [hf_id x0]
        have := hq x0 hx0
        have hn1 : rdb2.nextId ≤ _ := hn
        rw [hrdb2n] at hn1
        omega
      · rw [insertRoutineChildren_routines]
        show ((rdb.routines.map f).map _).Nodup
        rw [map_comp_eq rdb.routines f (fun x => x.id) hf_id]
        exact hnd
      · intro e hm
        rw [hfe] at hm
        have hn1 : rdb2.nextId ≤ _ := hn
        rw [hrdb2n] at hn1
        rcases List.mem_append.mp hm with h | h
        · rw [hrdb2ex] at h
          have := he e (List.mem_filter.mp h).1
          omega
        · rw [hfwid e h]
          have := hq ex hex_mem
          omega

/-! ### C1 -/

/-- C1. Upserting the same payload twice is idempotent: after the second
upsert exactly one Workout row carries the natural key, its derived
fields (totalVolume, durationMinutes, totalSets, totalReps) equal those
after the first upsert, the workout owns exactly one exercise row per
payload exercise, and each owned exercise has exactly its payload's
number of set rows - the repeated cascade delete-and-reinsert never
duplicates children. The same holds for `upsertRoutine` over
routines/routineExercises/routineSets (with its derived sorting and
classification fields). -/
theorem C1_upsert_idempotent (tm : String → ℤ) (w : HevyWorkout) (db : DB)
    (r : HevyRoutine) (rdb : RDB)
    (hinv : DBInv db) (hkey : (workoutsWithKey db w.id).length ≤ 1)
    (hinvR : RDBInv rdb) (hkeyR : (routinesWithKey rdb r.id).length ≤ 1) :
    (∃ r1 r2 : WorkoutRow,
      workoutsWithKey (upsertWorkout tm w db) w.id = [r1] ∧
        workoutsWithKey (upsertWorkout tm w (upsertWorkout tm w db)) w.id = [r2] ∧
        r2.totalVolume = r1.totalVolume ∧
        r2.durationMinutes = r1.durationMinutes ∧
        r2.totalSets = r1.totalSets ∧
        r2.totalReps = r1.totalReps ∧
        (exercisesOf (upsertWorkout tm w (upsertWorkout tm w db)) r2.id).length =
          w.exercises.length ∧
        setCountsOf (upsertWorkout tm w (upsertWorkout tm w db)) r2.id =
          w.exercises.map (fun e => e.sets.length)) ∧
      ∃ q1 q2 : RoutineRow,
        routinesWithKey (upsertRoutine r rdb) r.id = [q1] ∧
          routinesWithKey (upsertRoutine r (upsertRoutine r rdb)) r.id = [q2] ∧
          q2.dayNumber = q1.dayNumber ∧
          q2.weekNumber = q1.weekNumber ∧
          q2.sortOrder = q1.sortOrder ∧
          q2.dayType = q1.dayType ∧
          (routineExercisesOf (upsertRoutine r (upsertRoutine r rdb)) q2.id).length =
            r.exercises.length ∧
          routineSetCountsOf (upsertRoutine r (upsertRoutine r rdb)) q2.id =
            r.exercises.map (fun e => e.sets.length) := by
  constructor
  · obtain ⟨r1, h1key, h1v, h1s, h1r, h1d, _, _, h1inv⟩ :=
      upsertWorkout_spec tm w db hinv hkey
    obtain ⟨r2, h2key, h2v, h2s, h2r, h2d, h2exc, h2counts, _⟩ :=
      upsertWorkout_spec tm w (upsertWorkout tm w db) h1inv (by rw [h1key]; simp)
    exact ⟨r1, r2, h1key, h2key, by rw [h2v, h1v], by rw [h2d, h1d], by rw [h2s, h1s],
      by rw [h2r, h1r], h2exc, h2counts⟩
  · obtain ⟨q1, h1key, h1day, h1wk, h1sort, h1type, _, _, h1folders, h1inv⟩ :=
      upsertRoutine_spec r rdb hinvR hkeyR
    obtain ⟨q2, h2key, h2day, h2wk, h2sort, h2type, h2exc, h2counts, _, _⟩ :=
      upsertRoutine_spec r (upsertRoutine r rdb) h1inv (by rw [h1key]; simp)
    refine ⟨q1, q2, h1key, h2key, by rw [h2day, h1day], ?_, ?_, by rw [h2type, h1type],
      h2exc, h2counts⟩
    · rw [h2wk, h1wk, h1folders]
    · rw [h2sort, h1sort, h1folders]

/-- C1 witness: the idempotence theorem applied to the empty stores with a
concrete workout payload and a concrete routine payload. -/
theorem C1_witness :
    DBInv emptyDB ∧ (workoutsWithKey emptyDB c3Payload.id).length ≤ 1 ∧
      RDBInv emptyRDB ∧ (routinesWithKey emptyRDB c1Routine.id).length ≤ 1 ∧
      ((∃ r1 r2 : WorkoutRow,
        workoutsWithKey (upsertWorkout tmZero c3Payload emptyDB) c3Payload.id = [r1] ∧
          workoutsWithKey
              (upsertWorkout tmZero c3Payload (upsertWorkout tmZero c3Payload emptyDB))
              c3Payload.id = [r2] ∧
          r2.totalVolume = r1.totalVolume ∧
          r2.durationMinutes = r1.durationMinutes ∧
          r2.totalSets = r1.totalSets ∧
          r2.totalReps = r1.totalReps ∧
          (exercisesOf
              (upsertWorkout tmZero c3Payload (upsertWorkout tmZero c3Payload emptyDB))
              r2.id).length = c3Payload.exercises.length ∧
          setCountsOf
              (upsertWorkout tmZero c3Payload (upsertWorkout tmZero c3Payload emptyDB))
              r2.id = c3Payload.exercises.map (fun e => e.sets.length)) ∧
        ∃ q1 q2 : RoutineRow,
          routinesWithKey (upsertRoutine c1Routine emptyRDB) c1Routine.id = [q1] ∧
            routinesWithKey
                (upsertRoutine c1Routine (upsertRoutine c1Routine emptyRDB))
                c1Routine.id = [q2] ∧
            q2.dayNumber = q1.dayNumber ∧
            q2.weekNumber = q1.weekNumber ∧
            q2.sortOrder = q1.sortOrder ∧
            q2.dayType = q1.dayType ∧
            (routineExercisesOf
                (upsertRoutine c1Routine (upsertRoutine c1Routine emptyRDB))
                q2.id).length = c1Routine.exercises.length ∧
            routineSetCountsOf
                (upsertRoutine c1Routine (upsertRoutine c1Routine emptyRDB))
                q2.id = c1Routine.exercises.map (fun e => e.sets.length)) := by
  refine ⟨?_, ?_, ?_, ?_, ?_⟩
  · exact ⟨by simp [emptyDB], by simp [emptyDB], by simp [emptyDB]⟩
  · simp [workoutsWithKey, emptyDB]
  · exact ⟨by simp [emptyRDB], by simp [emptyRDB], by simp [emptyRDB], by simp [emptyRDB]⟩
  · simp [routinesWithKey, emptyRDB]
  · exact C1_upsert_idempotent tmZero c3Payload emptyDB c1Routine emptyRDB
      (by exact ⟨by simp [emptyDB], by simp [emptyDB], by simp [emptyDB]⟩)
      (by simp [workoutsWithKey, emptyDB])
      (by exact ⟨by simp [emptyRDB], by simp [emptyRDB], by simp [emptyRDB], by simp [emptyRDB]⟩)
      (by simp [routinesWithKey, emptyRDB])

/-! ### Mirror push lemmas (C5/C6/C10 support) -/

/-- A successful `notionRequest` under a configured token and an
all-success oracle. -/
theorem notionCall_ok (env : NotionEnv) (t : String) (ht : env.token = some t)
    (hok : ∀ k, env.httpOk k = true) (n : NetSt) :
    notionCall env n = ({ n with calls := n.calls + 1 }, none) := by
  simp [notionCall, ht, hok]

/-- A successful `createPage` appends one fresh page. -/
theorem createPage_ok (env : NotionEnv) (t : String) (ht : env.token = some t)
    (hok : ∀ k, env.httpOk k = true) (d : String) (k : Option String) (n : NetSt) :
    createPage env d k n =
      ({ mirror :=
          { pages :=
              n.mirror.pages ++ [{ id := n.mirror.nextPageId, dbId := d, key := k, archived := false }]
            nextPageId := n.mirror.nextPageId + 1 }
         calls := n.calls + 1 },
        .ok n.mirror.nextPageId) := by
  rw [createPage, notionCall_ok env t ht hok]

/-- Filtering a list whose members share a property. -/
theorem filter_const_length {α : Type} (l : List α) (p : α → Bool) (b : Bool)
    (h : ∀ x ∈ l, p x = b) : (l.filter p).length = if b then l.length else 0 := by
  induction l with
  | nil => cases b <;> simp
  | cons x t ih =>
    have hx := h x (by simp)
    have ht2 := ih (fun y hy => h y (by simp [hy]))
    cases b <;> simp [List.filter_cons, hx, ht2]

/-- The set-page loop under the all-success oracle: one fresh key-less page
per set row in the Sets database, nothing else changed. -/
theorem syncSetPages_ok (env : NotionEnv) (t : String) (ht : env.token = some t)
    (hok : ∀ k, env.httpOk k = true) (setDb : String) (sets : List SetRow) (n : NetSt) :
    ∃ n' extra,
      syncSetPages env setDb sets n = (n', none) ∧
        n'.mirror.pages = n.mirror.pages ++ extra ∧
        (∀ p ∈ extra, p.key = none ∧ p.archived = false ∧ p.dbId = setDb) ∧
        extra.length = sets.length := by
  induction sets generalizing n with
  | nil => exact ⟨n, [], rfl, by simp, by simp, rfl⟩
  | cons s rest ih =>
    rw [syncSetPages, createPage_ok env t ht hok]
    obtain ⟨n', extra, hrun, hpages, hprops, hlen⟩ := ih _
    refine ⟨n', { id := n.mirror.nextPageId, dbId := setDb, key := none, archived := false }
      :: extra, hrun, ?_, ?_, by simp [hlen]⟩
    · rw [hpages]
      simp
    · intro p hp
      rcases List.mem_cons.mp hp with rfl | hp2
      · exact ⟨rfl, rfl, rfl⟩
      · exact hprops p hp2

/-- The exercise-page loop under the all-success oracle: one fresh
key-less page per exercise in the Exercises database plus one per stored
set row in the Sets database. -/
theorem syncExercisePages_ok (env : NotionEnv) (t : String) (ht : env.token = some t)
    (hok : ∀ k, env.httpOk k = true) (exDb setDb : String) (exs : List ExerciseRow)
    (db : DB) (n : NetSt) :
    ∃ n' extra,
      syncExercisePages env exDb setDb exs db n = (n', none) ∧
        n'.mirror.pages = n.mirror.pages ++ extra ∧
        (∀ p ∈ extra, p.key = none ∧ p.archived = false) ∧
        ∀ d : String,
          (extra.filter (fun p => p.dbId == d)).length =
            (if exDb = d then exs.length else 0) +
              if setDb = d then (exs.map (fun e => countSetsOf db.sets e.id)).sum else 0 := by
  induction exs generalizing n with
  | nil =>
    refine ⟨n, [], rfl, by simp, by simp, ?_⟩
    intro d
    cases hed : decide (exDb = d) <;> cases hsd : decide (setDb = d) <;>
      simp_all
  | cons e rest ih =>
    rw [syncExercisePages, createPage_ok env t ht hok]
    dsimp only
    obtain ⟨n1, extra1, hrun1, hpages1, hprops1, hlen1⟩ :=
      syncSetPages_ok env t ht hok setDb (db.sets.filter (fun s => s.exerciseId == e.id))
        { mirror :=
            { pages := n.mirror.pages ++
                [{ id := n.mirror.nextPageId, dbId := exDb, key := none, archived := false }]
              nextPageId := n.mirror.nextPageId + 1 }
          calls := n.calls + 1 }
    rw [hrun1]
    dsimp only
    obtain ⟨n2, extra2, hrun2, hpages2, hprops2, hcount2⟩ := ih n1
    refine ⟨n2,
      ({ id := n.mirror.nextPageId, dbId := exDb, key := none, archived := false } :: extra1)
        ++ extra2, hrun2, ?_, ?_, ?_⟩
    · rw [hpages2, hpages1]
      dsimp only
      simp
    · intro p hp
      rcases List.mem_append.mp hp with hp | hp
      · rcases List.mem_cons.mp hp with rfl | hp2
        · exact ⟨rfl, rfl⟩
        · exact ⟨(hprops1 p hp2).1, (hprops1 p hp2).2.1⟩
      · exact hprops2 p hp
    · intro d
      rw [List.filter_append, List.length_append, hcount2 d, List.filter_cons]
      have hextra1 : (extra1.filter (fun p => p.dbId == d)).length =
          if setDb = d then countSetsOf db.sets e.id else 0 := by
        rw [filter_const_length extra1 _ (setDb == d)
          (fun x hx => by rw [(hprops1 x hx).2.2])]
        have : countSetsOf db.sets e.id =
            (db.sets.filter (fun s => s.exerciseId == e.id)).length := rfl
        by_cases hsd : setDb = d <;> simp [hsd, this, hlen1]
      by_cases hed : exDb = d <;> by_cases hsd : setDb = d <;>
        simp [hed, hsd, hextra1, List.map_cons, List.sum_cons] <;> omega

/-- A successful property-filter query. -/
theorem queryKeyPages_ok (env : NotionEnv) (t : String) (ht : env.token = some t)
    (hok : ∀ k, env.httpOk k = true) (d k : String) (n : NetSt) :
    queryKeyPages env d k n =
      ({ n with calls := n.calls + 1 },
        .ok
          ((n.mirror.pages.filter (fun p => p.dbId == d && p.key == some k && !p.archived)).map
            (fun p => p.id))) := by
  rw [queryKeyPages, notionCall_ok env t ht hok]

/-- A successful `updatePage` property patch. -/
theorem updatePageKeyed_ok (env : NotionEnv) (t : String) (ht : env.token = some t)
    (hok : ∀ k, env.httpOk k = true) (pid : Nat) (k : Option String) (n : NetSt) :
    updatePageKeyed env pid k n =
      ({ mirror :=
          { pages := n.mirror.pages.map (fun p => if p.id == pid then { p with key := k } else p)
            nextPageId := n.mirror.nextPageId }
         calls := n.calls + 1 }, none) := by
  rw [updatePageKeyed, notionCall_ok env t ht hok]

/-- The head of a list, when present, is a member. -/
theorem mem_of_head?_eq_some {α : Type} {l : List α} {a : α} (h : l.head? = some a) :
    a ∈ l := by
  cases l with
  | nil => cases h
  | cons x t =>
    simp only [List.head?_cons, Option.some.injEq] at h
    rw [← h]
    exact List.mem_cons_self x t

/-- The normal (non-archive) path of the per-workout mirror push under the
all-success oracle, for a workout with no stored page id: the workout is
marked synced with some page id, the mirror only gains pages (every
pre-existing page, in particular its archived flag, is untouched), a
natural-key match found by the search is adopted (its id is stored and
every fresh page is key-less), and the page counts per database grow by
exactly the children (plus one workout page only when no match existed). -/
theorem processWorkout_normal (env : NotionEnv) (t : String) (ht : env.token = some t)
    (hok : ∀ k, env.httpOk k = true) (wDb exDb setDb : String) (w : WorkoutRow)
    (db : DB) (n : NetSt) (hpid : w.notionPageId = none)
    (hnd : (n.mirror.pages.map (fun p => p.id)).Nodup) :
    ∃ pid n' extra,
      processWorkout env wDb exDb setDb w db n = (markWorkoutSynced w.id pid db, n', none) ∧
        n'.mirror.pages = n.mirror.pages ++ extra ∧
        (∀ p ∈ extra, p.archived = false) ∧
        (∀ p, firstLiveMatch n.mirror wDb w.hevyId = some p →
          pid = p.id ∧ ∀ q ∈ extra, q.key = none) ∧
        ∀ d : String,
          (extra.filter (fun p2 => p2.dbId == d)).length =
            (match firstLiveMatch n.mirror wDb w.hevyId with
              | some _ => 0
              | none => if wDb = d then 1 else 0) +
              ((if exDb = d then (exercisesOf db w.id).length else 0) +
                if setDb = d then
                  ((exercisesOf db w.id).map (fun e => countSetsOf db.sets e.id)).sum
                else 0) := by
  have h0 : (if w.isDeleted then w.notionPageId else none) = none := by
    rw [hpid]
    split <;> rfl
  rw [processWorkout, h0]
  dsimp only
  rw [hpid]
  dsimp only
  rw [queryKeyPages_ok env t ht hok]
  dsimp only
  have hhead :
      ((n.mirror.pages.filter
            (fun p => p.dbId == wDb && p.key == some w.hevyId && !p.archived)).map
          (fun p => p.id)).head? =
        (firstLiveMatch n.mirror wDb w.hevyId).map (fun p => p.id) := by
    rw [firstLiveMatch, List.head?_map]
  rw [hhead]
  rcases hm : firstLiveMatch n.mirror wDb w.hevyId with _ | p
  · -- no pre-existing match: create the workout page
    dsimp only [Option.map_none']
    rw [createPage_ok env t ht hok]
    dsimp only
    obtain ⟨n3, extra3, hrun3, hpages3, hprops3, hcount3⟩ :=
      syncExercisePages_ok env t ht hok exDb setDb (exercisesOf db w.id) db
        { mirror :=
            { pages := n.mirror.pages ++
                [{ id := n.mirror.nextPageId, dbId := wDb, key := some w.hevyId,
                   archived := false }]
              nextPageId := n.mirror.nextPageId + 1 }
          calls := n.calls + 1 + 1 }
    rw [hrun3]
    dsimp only
    refine ⟨n.mirror.nextPageId, n3,
      { id := n.mirror.nextPageId, dbId := wDb, key := some w.hevyId, archived := false }
        :: extra3, rfl, ?_, ?_, ?_, ?_⟩
    · rw [hpages3]
      dsimp only
      simp
    · intro pg hpg
      rcases List.mem_cons.mp hpg with rfl | hpg2
      · rfl
      · exact (hprops3 pg hpg2).2
    · intro pg hpg
      exact Option.noConfusion hpg
    · intro d
      simp only [List.filter_cons]
      by_cases hwd : wDb = d
      · subst hwd
        rw [if_pos (by simp), List.length_cons, hcount3 wDb]
        simp
        try omega
      · rw [if_neg (by simp [hwd]), hcount3 d]
        simp [hwd]
        try omega
  · -- match found: adopt its page id and update it in place
    dsimp only [Option.map_some']
    rw [updatePageKeyed_ok env t ht hok]
    dsimp only
    have hpmem : p ∈ n.mirror.pages.filter
        (fun q => q.dbId == wDb && q.key == some w.hevyId && !q.archived) :=
      mem_of_head?_eq_some hm
    have hpmem2 : p ∈ n.mirror.pages := List.mem_of_mem_filter hpmem
    have hpkey : p.key = some w.hevyId := by
      have := (List.mem_filter.mp hpmem).2
      simp only [Bool.and_eq_true, beq_iff_eq] at this
      exact this.1.2
    have hmapid :
        n.mirror.pages.map
            (fun q => if q.id == p.id then { q with key := some w.hevyId } else q) =
          n.mirror.pages := by
      apply map_eq_self_of
      intro x hx
      by_cases hxid : x.id = p.id
      · have hxp : x = p :=
          List.inj_on_of_nodup_map hnd hx hpmem2 hxid
        subst hxp
        rw [if_pos (by simp)]
        rw [← hpkey]
      · rw [if_neg (by simpa using hxid)]
    rw [hmapid]
    obtain ⟨n3, extra3, hrun3, hpages3, hprops3, hcount3⟩ :=
      syncExercisePages_ok env t ht hok exDb setDb (exercisesOf db w.id) db
        { mirror := { pages := n.mirror.pages, nextPageId := n.mirror.nextPageId }
          calls := n.calls + 1 + 1 }
    rw [hrun3]
    dsimp only
    refine ⟨p.id, n3, extra3, rfl, ?_, fun pg hpg => (hprops3 pg hpg).2, ?_, ?_⟩
    · rw [hpages3]
    · intro q hq
      obtain rfl : p = q := by simpa using hq
      exact ⟨rfl, fun q2 hq2 => (hprops3 q2 hq2).1⟩
    · intro d
      rw [hcount3 d]
      omega

/-- Store frame of the per-workout push body: on a caught failure the
store is untouched; in any case the only possible store effect is the
final `markWorkoutSynced` of this very workout. -/
theorem processWorkout_db_frame (env : NotionEnv) (a b c : String) (w : WorkoutRow)
    (db : DB) (n : NetSt) :
    ((processWorkout env a b c w db n).2.2.isSome → (processWorkout env a b c w db n).1 = db) ∧
      ((processWorkout env a b c w db n).1 = db ∨
        ∃ pid, (processWorkout env a b c w db n).1 = markWorkoutSynced w.id pid db) := by
  unfold processWorkout
  dsimp only
  repeat' split
  all_goals
    refine ⟨?_, ?_⟩
  all_goals
    first
      | (intro h; rfl)
      | (intro h; simp at h)
      | exact Or.inl rfl
      | exact Or.inr ⟨_, rfl⟩

/-- The loop counts every snapshot element exactly once. -/
theorem syncWorkoutsLoop_counts (env : NotionEnv) (a b c : String) (ws : List WorkoutRow)
    (db : DB) (n : NetSt) :
    (syncWorkoutsLoop env a b c ws db n).2.1 + (syncWorkoutsLoop env a b c ws db n).2.2 =
      ws.length := by
  induction ws generalizing db n with
  | nil => rfl
  | cons w t ih =>
    rw [syncWorkoutsLoop]
    rcases hp : processWorkout env a b c w db n with ⟨db1, n1, r⟩
    rcases r with _ | e <;> dsimp only <;> rw [List.length_cons, ← ih db1 n1] <;> omega

/-- `markWorkoutSynced` does not disturb the lookup of other rows. -/
theorem findWorkoutRow_markSynced_other (wid pid m : Nat) (hne : m ≠ wid) (db : DB) :
    findWorkoutRow (markWorkoutSynced wid pid db) m = findWorkoutRow db m := by
  unfold findWorkoutRow markWorkoutSynced
  dsimp only
  induction db.workouts with
  | nil => rfl
  | cons x t ih =>
    rw [List.map_cons]
    by_cases hxm : x.id = m
    · have hxw : (x.id == wid) = false := by
        simp only [beq_eq_false_iff_ne, ne_eq]
        rw [hxm]
        exact hne
      rw [List.find?_cons, List.find?_cons]
      simp [hxw, hxm, hne]
    · have hid : (if x.id == wid
          then ({ x with syncedToNotion := true, notionPageId := some pid } : WorkoutRow)
          else x).id = x.id := by
        split <;> rfl
      have hxmb : (x.id == m) = false := by simpa using hxm
      rw [List.find?_cons, List.find?_cons]
      simp only [hid, hxmb]
      exact ih

/-- The loop never disturbs the lookup of a row whose id is not in the
snapshot. -/
theorem syncWorkoutsLoop_find_frame (env : NotionEnv) (a b c : String)
    (ws : List WorkoutRow) (db : DB) (n : NetSt) (m : Nat) (hm : ∀ w ∈ ws, w.id ≠ m) :
    findWorkoutRow (syncWorkoutsLoop env a b c ws db n).1.1 m = findWorkoutRow db m := by
  induction ws generalizing db n with
  | nil => rfl
  | cons w t ih =>
    rw [syncWorkoutsLoop]
    rcases hp : processWorkout env a b c w db n with ⟨db1, n1, r⟩
    have hdb1 : findWorkoutRow db1 m = findWorkoutRow db m := by
      have frame := (processWorkout_db_frame env a b c w db n).2
      rw [hp] at frame
      rcases frame with h | ⟨pid, h⟩
      · rw [show db1 = db from h]
      · rw [show db1 = markWorkoutSynced w.id pid db from h]
        exact findWorkoutRow_markSynced_other w.id pid m
          (fun hc => hm w (by simp) hc.symm) db
    rcases r with _ | e <;> dsimp only <;>
      rw [ih db1 n1 (fun x hx => hm x (List.mem_cons_of_mem _ hx)), hdb1]

/-- The loop splits over list concatenation. -/
theorem syncWorkoutsLoop_append (env : NotionEnv) (a b c : String)
    (l1 l2 : List WorkoutRow) (db : DB) (n : NetSt) :
    syncWorkoutsLoop env a b c (l1 ++ l2) db n =
      ((syncWorkoutsLoop env a b c l2 (syncWorkoutsLoop env a b c l1 db n).1.1
          (syncWorkoutsLoop env a b c l1 db n).1.2).1,
        (syncWorkoutsLoop env a b c l1 db n).2.1 +
          (syncWorkoutsLoop env a b c l2 (syncWorkoutsLoop env a b c l1 db n).1.1
            (syncWorkoutsLoop env a b c l1 db n).1.2).2.1,
        (syncWorkoutsLoop env a b c l1 db n).2.2 +
          (syncWorkoutsLoop env a b c l2 (syncWorkoutsLoop env a b c l1 db n).1.1
            (syncWorkoutsLoop env a b c l1 db n).1.2).2.2) := by
  induction l1 generalizing db n with
  | nil => simp [syncWorkoutsLoop]
  | cons w t ih =>
    rw [List.cons_append, syncWorkoutsLoop, syncWorkoutsLoop]
    rcases hp : processWorkout env a b c w db n with ⟨db1, n1, r⟩
    rcases r with _ | e <;> dsimp only <;> rw [ih db1 n1] <;> dsimp only <;>
      simp only [Prod.mk.injEq, true_and, and_true] <;> omega

/-- Under unique ids, a member row is what its id finds. -/
theorem find_of_nodup_mem (l : List WorkoutRow) (w : WorkoutRow)
    (hnd : (l.map (fun x => x.id)).Nodup) (hmem : w ∈ l) :
    l.find? (fun x => x.id == w.id) = some w := by
  induction l with
  | nil => cases hmem
  | cons x t ih =>
    rcases List.mem_cons.mp hmem with rfl | hmem2
    · exact List.find?_cons_of_pos _ (by simp)
    · have hnd2 : (∀ y ∈ t, ¬ y.id = x.id) ∧ (t.map (fun y => y.id)).Nodup := by
        simpa using hnd
      have hxid : x.id ≠ w.id := fun hcontra => hnd2.1 w hmem2 (by rw [hcontra])
      rw [List.find?_cons_of_neg _ (by simpa using hxid)]
      exact ih hnd2.2 hmem2

/-- Key-less pages never match a natural-key filter. -/
theorem filter_keyless_nil (extra : List MirrorPage) (d k : String)
    (hextra : ∀ p ∈ extra, p.key = none) :
    extra.filter (fun p => p.dbId == d && p.key == some k && !p.archived) = [] := by
  apply List.filter_eq_nil_iff.mpr
  intro p hp
  simp [hextra p hp]

/-- The folder push body always creates: under the all-success oracle it
unconditionally appends a fresh Programs page carrying the folder's
natural key and marks the folder synced with the fresh page id - it
neither consults a stored page id nor searches the database. -/
theorem processRoutineFolder_ok (env : NotionEnv) (t : String) (ht : env.token = some t)
    (hok : ∀ k, env.httpOk k = true) (progDb : String) (folder : FolderRow) (rdb : RDB)
    (n : NetSt) :
    processRoutineFolder env progDb folder rdb n =
      (markRoutineFolderSynced folder.id n.mirror.nextPageId rdb,
        { mirror :=
            { pages :=
                n.mirror.pages ++
                  [{ id := n.mirror.nextPageId, dbId := progDb,
                     key := some (toString folder.hevyId), archived := false }]
              nextPageId := n.mirror.nextPageId + 1 }
          calls := n.calls + 1 }, none) := by
  rw [processRoutineFolder, createPage_ok env t ht hok]

/-! ### C5 -/

/-- C5, counterexample. The routine-folder push never searches: on a
folder with no stored page id whose natural key already has a live page
in the Programs database, `syncRoutinesToNotion`'s folder step creates a
second page with the same key - the pre-existing match is duplicated, so
the create-or-adopt discipline does not apply to every record kind. -/
theorem C5_counterexample :
    c5Folder.notionPageId = none ∧
      countKeyPages c5Net.mirror "programs" "7" = 1 ∧
      (processRoutineFolder okEnv "programs" c5Folder c5RDB c5Net).2.2 = none ∧
      countKeyPages (processRoutineFolder okEnv "programs" c5Folder c5RDB c5Net).2.1.mirror
        "programs" "7" = 2 := by
  refine ⟨rfl, by decide, ?_, ?_⟩
  · rw [processRoutineFolder_ok okEnv "tok" rfl (fun k => rfl)]
  · rw [processRoutineFolder_ok okEnv "tok" rfl (fun k => rfl)]
    decide

/-- C5, amended. The create-or-adopt discipline holds for the workout
push: when an unsynced workout has no stored page id and the mirror
already holds a live page with its natural key, the push adopts that
page's id (the workout is marked synced with it), the number of pages
carrying the key is unchanged (no duplicate is created), and every
pre-existing page is left intact. The routine-side pushes do not follow
the discipline: the folder step always creates a fresh page carrying the
folder's key (see the counterexample), growing the key's page count by
one even when a match exists. -/
theorem C5_amended (env : NotionEnv) (t : String) (ht : env.token = some t)
    (hok : ∀ k, env.httpOk k = true) (wDb exDb setDb : String) (w : WorkoutRow)
    (db : DB) (n : NetSt) (hpid : w.notionPageId = none)
    (hnd : (n.mirror.pages.map (fun p => p.id)).Nodup)
    (p : MirrorPage) (hmatch : firstLiveMatch n.mirror wDb w.hevyId = some p)
    (progDb : String) (folder : FolderRow) (rdb : RDB) (nf : NetSt) :
    (∃ n', processWorkout env wDb exDb setDb w db n =
        (markWorkoutSynced w.id p.id db, n', none) ∧
      countKeyPages n'.mirror wDb w.hevyId = countKeyPages n.mirror wDb w.hevyId ∧
      ∀ q ∈ n.mirror.pages, q ∈ n'.mirror.pages) ∧
    ∃ nf', processRoutineFolder env progDb folder rdb nf =
        (markRoutineFolderSynced folder.id nf.mirror.nextPageId rdb, nf', none) ∧
      countKeyPages nf'.mirror progDb (toString folder.hevyId) =
        countKeyPages nf.mirror progDb (toString folder.hevyId) + 1 := by
  constructor
  · obtain ⟨pid, n', extra, hrun, hpages, _, hadopt, _⟩ :=
      processWorkout_normal env t ht hok wDb exDb setDb w db n hpid hnd
    obtain ⟨hpid2, hkeys⟩ := hadopt p hmatch
    subst hpid2
    refine ⟨n', hrun, ?_, ?_⟩
    · rw [countKeyPages, countKeyPages, hpages, List.filter_append,
        filter_keyless_nil extra _ _ hkeys]
      simp
    · intro q hq
      rw [hpages]
      exact List.mem_append_left _ hq
  · rw [processRoutineFolder_ok env t ht hok]
    refine ⟨_, rfl, ?_⟩
    rw [countKeyPages, countKeyPages]
    dsimp only
    rw [List.filter_append]
    simp

/-- C5 witness: the amended theorem applied to a workout whose key already
has a live mirror page, and to the concrete folder scenario. -/
theorem C5_amended_witness :
    okEnv.token = some "tok" ∧ c6Row.notionPageId = none ∧
      firstLiveMatch c5WNet.mirror "wdb" c6Row.hevyId = some c5Page ∧
      ∃ n', processWorkout okEnv "wdb" "edb" "sdb" c6Row c6DB c5WNet =
          (markWorkoutSynced c6Row.id c5Page.id c6DB, n', none) ∧
        countKeyPages n'.mirror "wdb" c6Row.hevyId =
          countKeyPages c5WNet.mirror "wdb" c6Row.hevyId ∧
        ∀ q ∈ c5WNet.mirror.pages, q ∈ n'.mirror.pages :=
  ⟨rfl, rfl, by decide,
    (C5_amended okEnv "tok" rfl (fun k => rfl) "wdb" "edb" "sdb" c6Row c6DB c5WNet rfl
      (by simp [c5WNet, c5Page]) c5Page (by decide) "programs" c5Folder c5RDB c5Net).1⟩

/-! ### C10 -/

/-- C10. A tombstoned workout with no stored mirror page id is not
skipped and nothing is archived: since the archive branch requires an
existing page id, the record falls through to the normal search/create
path; under the all-success oracle it ends marked synced with a page id,
every pre-existing mirror page (in particular its archived flag) is left
intact, one exercise page per owned exercise row and one set page per
owned set row are created in their databases, a searched natural-key
match (if any) is adopted as the page id, and only when no match exists
is one fresh workout page created. -/
theorem C10_deleted_without_page (env : NotionEnv) (t : String) (ht : env.token = some t)
    (hok : ∀ k, env.httpOk k = true) (wDb exDb setDb : String) (w : WorkoutRow)
    (db : DB) (n : NetSt) (hdel : w.isDeleted = true) (hpid : w.notionPageId = none)
    (hnd : (n.mirror.pages.map (fun p => p.id)).Nodup)
    (hxw : exDb ≠ wDb) (hsx : setDb ≠ exDb) (hsw : setDb ≠ wDb) :
    ∃ pid n',
      processWorkout env wDb exDb setDb w db n = (markWorkoutSynced w.id pid db, n', none) ∧
        (∀ q ∈ n.mirror.pages, q ∈ n'.mirror.pages) ∧
        countPagesIn n'.mirror exDb = countPagesIn n.mirror exDb +
          (exercisesOf db w.id).length ∧
        countPagesIn n'.mirror setDb = countPagesIn n.mirror setDb +
          ((exercisesOf db w.id).map (fun e => countSetsOf db.sets e.id)).sum ∧
        (firstLiveMatch n.mirror wDb w.hevyId = none →
          countPagesIn n'.mirror wDb = countPagesIn n.mirror wDb + 1) ∧
        ∀ p, firstLiveMatch n.mirror wDb w.hevyId = some p → pid = p.id := by
  obtain ⟨pid, n', extra, hrun, hpages, _, hadopt, hcount⟩ :=
    processWorkout_normal env t ht hok wDb exDb setDb w db n hpid hnd
  refine ⟨pid, n', hrun, ?_, ?_, ?_, ?_, fun p hp => (hadopt p hp).1⟩
  · intro q hq
    rw [hpages]
    exact List.mem_append_left _ hq
  · rw [countPagesIn, countPagesIn, hpages, List.filter_append, List.length_append,
      hcount exDb]
    rcases hm : firstLiveMatch n.mirror wDb w.hevyId with _ | p <;> dsimp only
    · rw [if_neg (fun hc => hxw hc.symm), if_pos rfl, if_neg hsx]
      omega
    · rw [if_pos rfl, if_neg hsx]
      omega
  · rw [countPagesIn, countPagesIn, hpages, List.filter_append, List.length_append,
      hcount setDb]
    rcases hm : firstLiveMatch n.mirror wDb w.hevyId with _ | p <;> dsimp only
    · rw [if_neg (fun hc => hsw hc.symm), if_neg (fun hc => hsx hc.symm), if_pos rfl]
      omega
    · rw [if_neg (fun hc => hsx hc.symm), if_pos rfl]
      omega
  · intro hm
    rw [countPagesIn, countPagesIn, hpages, List.filter_append, List.length_append,
      hcount wDb]
    rw [hm]
    dsimp only
    rw [if_pos rfl, if_neg hxw, if_neg hsw]
    try omega

/-- C10 witness: the theorem applied to a concrete tombstoned,
never-mirrored workout against an empty mirror. -/
theorem C10_witness :
    c10Row.isDeleted = true ∧ c10Row.notionPageId = none ∧
      ∃ pid n',
        processWorkout okEnv "wdb" "edb" "sdb" c10Row c10DB net0 =
            (markWorkoutSynced c10Row.id pid c10DB, n', none) ∧
          (∀ q ∈ net0.mirror.pages, q ∈ n'.mirror.pages) ∧
          countPagesIn n'.mirror "edb" = countPagesIn net0.mirror "edb" +
            (exercisesOf c10DB c10Row.id).length ∧
          countPagesIn n'.mirror "sdb" = countPagesIn net0.mirror "sdb" +
            ((exercisesOf c10DB c10Row.id).map
              (fun e => countSetsOf c10DB.sets e.id)).sum ∧
          (firstLiveMatch net0.mirror "wdb" c10Row.hevyId = none →
            countPagesIn n'.mirror "wdb" = countPagesIn net0.mirror "wdb" + 1) ∧
          ∀ p, firstLiveMatch net0.mirror "wdb" c10Row.hevyId = some p → pid = p.id :=
  ⟨rfl, rfl,
    C10_deleted_without_page okEnv "tok" rfl (fun k => rfl) "wdb" "edb" "sdb" c10Row c10DB
      net0 rfl rfl (by simp [net0]) (by decide) (by decide) (by decide)⟩

/-! ### C6 -/

/-- C6, amended. The mirror pass always returns a
`{success, synced, errors, total}` object with `total` the size of the
unsynced snapshot and `synced + errors = total`: every per-record failure
is caught and counted, and the loop continues. A record whose processing
failed keeps `syncedToNotion = false` in the final store, so it is
retried on a later pass. The pass never throws at all - even a missing
access token does not abort it: the configuration error raised by
`notionRequest` is caught by the same per-record handler (see the
counterexample), rather than propagating as the claim states. -/
theorem C6_mirror_error_isolation (env : NotionEnv) (a b c : String) (db : DB) (n : NetSt)
    (hnodup : (db.workouts.map (fun x => x.id)).Nodup) :
    (syncToNotion env a b c db n).2.success = true ∧
      (syncToNotion env a b c db n).2.total = (getUnsyncedWorkouts db).length ∧
      (syncToNotion env a b c db n).2.synced + (syncToNotion env a b c db n).2.errors =
        (syncToNotion env a b c db n).2.total ∧
      ∀ ws1 w ws2, getUnsyncedWorkouts db = ws1 ++ w :: ws2 →
        (processWorkout env a b c w (syncWorkoutsLoop env a b c ws1 db n).1.1
            (syncWorkoutsLoop env a b c ws1 db n).1.2).2.2.isSome = true →
        ∃ r, findWorkoutRow (syncToNotion env a b c db n).1.1 w.id = some r ∧
          r.syncedToNotion = false := by
  refine ⟨rfl, rfl, ?_, ?_⟩
  · exact syncWorkoutsLoop_counts env a b c (getUnsyncedWorkouts db) db n
  · intro ws1 w ws2 hws hfail
    have hw_mem : w ∈ getUnsyncedWorkouts db := by
      rw [hws]
      exact List.mem_append_right _ (List.mem_cons_self w ws2)
    have hw_db : w ∈ db.workouts := List.mem_of_mem_filter hw_mem
    have hw_flag : w.syncedToNotion = false := by
      have := (List.mem_filter.mp hw_mem).2
      simpa using this
    have hnd_ws : ((getUnsyncedWorkouts db).map (fun x => x.id)).Nodup := by
      have hsub : (getUnsyncedWorkouts db).Sublist db.workouts := List.filter_sublist db.workouts
      exact hnodup.sublist (hsub.map (fun x => x.id))
    rw [hws, List.map_append, List.map_cons] at hnd_ws
    obtain ⟨hn1, hn2, hdisj⟩ := List.nodup_append.mp hnd_ws
    have hws1_ids : ∀ x ∈ ws1, x.id ≠ w.id := by
      intro x hx hc
      exact hdisj (List.mem_map_of_mem (fun y => y.id) hx) (by simp [hc])
    have hws2_ids : ∀ x ∈ ws2, x.id ≠ w.id := by
      intro x hx hc
      have := (List.nodup_cons.mp hn2).1
      exact this (hc ▸ List.mem_map_of_mem (fun y => y.id) hx)
    have hfind0 : findWorkoutRow db w.id = some w := find_of_nodup_mem _ w hnodup hw_db
    have hsplit := syncWorkoutsLoop_append env a b c ws1 (w :: ws2) db n
    have hfinal : (syncToNotion env a b c db n).1.1 =
        (syncWorkoutsLoop env a b c (w :: ws2) (syncWorkoutsLoop env a b c ws1 db n).1.1
          (syncWorkoutsLoop env a b c ws1 db n).1.2).1.1 := by
      show (syncWorkoutsLoop env a b c (getUnsyncedWorkouts db) db n).1.1 = _
      rw [hws, hsplit]
    rw [hfinal]
    rw [syncWorkoutsLoop]
    rcases hp : processWorkout env a b c w (syncWorkoutsLoop env a b c ws1 db n).1.1
        (syncWorkoutsLoop env a b c ws1 db n).1.2 with ⟨db1, n1, r⟩
    rcases r with _ | e
    · rw [hp] at hfail
      simp at hfail
    · have hframe := (processWorkout_db_frame env a b c w
        (syncWorkoutsLoop env a b c ws1 db n).1.1
        (syncWorkoutsLoop env a b c ws1 db n).1.2).1
      rw [hp] at hframe
      have hdb1 : db1 = (syncWorkoutsLoop env a b c ws1 db n).1.1 := hframe (by simp)
      dsimp only
      rw [syncWorkoutsLoop_find_frame env a b c ws2 db1 n1 w.id hws2_ids, hdb1,
        syncWorkoutsLoop_find_frame env a b c ws1 db n w.id hws1_ids, hfind0]
      exact ⟨w, rfl, hw_flag⟩

/-- C6 witness: the amended theorem applied to the one-workout store. -/
theorem C6_witness :
    ((c6DB.workouts.map (fun x => x.id)).Nodup) ∧
      (syncToNotion c6Env "wdb" "edb" "sdb" c6DB net0).2.synced +
          (syncToNotion c6Env "wdb" "edb" "sdb" c6DB net0).2.errors =
        (syncToNotion c6Env "wdb" "edb" "sdb" c6DB net0).2.total :=
  ⟨by simp [c6DB], (C6_mirror_error_isolation c6Env "wdb" "edb" "sdb" c6DB net0
    (by simp [c6DB])).2.2.1⟩

/-- C6, counterexample. With no access token configured the pass does not
throw: the missing-configuration error raised by the first
`notionRequest` is caught by the per-record try/catch like any other
failure, so the pass returns `{success, synced := 0, errors := 1,
total := 1}` - contradicting the claim that the pass throws (only) for
missing configuration. -/
theorem C6_counterexample :
    c6Env.token = none ∧
      (processWorkout c6Env "wdb" "edb" "sdb" c6Row c6DB net0).2.2 =
        some "NOTION_TOKEN not configured" ∧
      (syncToNotion c6Env "wdb" "edb" "sdb" c6DB net0).2 =
        { success := true, synced := 0, errors := 1, total := 1 } := by
  refine ⟨rfl, ?_, ?_⟩ <;> decide

/-! ### C7 -/

/-- Per-event count increments: an `updated` event with a payload counts
one update, a `deleted` event with a truthy id counts one delete. -/
theorem processEvent_counts (tm : String → ℤ) (e : HevyEvent) (db : DB) :
    (processEvent tm e db).2.1 = (if e.type == "updated" && e.workout.isSome then 1 else 0) ∧
      (processEvent tm e db).2.2 = (if e.type == "deleted" && truthyOptStr e.id then 1 else 0) := by
  unfold processEvent
  by_cases hu : e.type = "updated"
  · cases e.workout <;> simp [hu, truthyOptStr]
  · by_cases hd : e.type = "deleted"
    · cases hi : e.id with
      | none => simp [hd, hu, truthyOptStr]
      | some i => cases hti : truthyStr i <;> simp [hd, hu, truthyOptStr, hti]
    · simp [hu, hd]

/-- The event loop returns exactly the number of applied updates and
deletes, as filter lengths over the event list. -/
theorem processEvents_counts (tm : String → ℤ) (es : List HevyEvent) (db : DB) :
    (processEvents tm es db).2.1 =
        (es.filter (fun e => e.type == "updated" && e.workout.isSome)).length ∧
      (processEvents tm es db).2.2 =
        (es.filter (fun e => e.type == "deleted" && truthyOptStr e.id)).length := by
  induction es generalizing db with
  | nil => exact ⟨rfl, rfl⟩
  | cons e rest ih =>
    obtain ⟨h1, h2⟩ := processEvent_counts tm e db
    obtain ⟨ih1, ih2⟩ := ih (processEvent tm e db).1
    have hstep : processEvents tm (e :: rest) db =
        ((processEvents tm rest (processEvent tm e db).1).1,
          (processEvent tm e db).2.1 + (processEvents tm rest (processEvent tm e db).1).2.1,
          (processEvent tm e db).2.2 + (processEvents tm rest (processEvent tm e db).1).2.2) := rfl
    rw [hstep]
    refine ⟨?_, ?_⟩ <;> dsimp only
    · rw [h1, ih1, List.filter_cons]
      cases hc : (e.type == "updated" && e.workout.isSome) <;> simp <;> omega
    · rw [h2, ih2, List.filter_cons]
      cases hc : (e.type == "deleted" && truthyOptStr e.id) <;> simp <;> omega

/-- Persisting the cursor: after `updateSyncState` with a truthy `now` in
both timestamp fields, the singleton row carries `now` in both. -/
theorem getSyncState_after_update (now : String) (db : DB) (hnow : now ≠ "") :
    ∃ st, getSyncState
        (updateSyncState { lastSyncedAt := some now, lastEventTimestamp := some now } db) =
          some st ∧
      st.lastSyncedAt = some now ∧ st.lastEventTimestamp = some now := by
  unfold updateSyncState getSyncState
  cases hss : db.syncState with
  | nil => exact ⟨_, rfl, rfl, rfl⟩
  | cons s rest =>
    refine ⟨_, rfl, ?_, ?_⟩ <;> simp [truthyOptStr, truthyStr, hnow]

/-- C7. The incremental pass reads its cursor from
`syncState.lastEventTimestamp`, defaulting to the epoch start when the
row or the field is absent (and using the stored value when truthy);
after processing every fetched event it persists the wall-clock `now` as
both `lastSyncedAt` and the new cursor - not the maximum event timestamp
seen - and returns the counts of applied updates and deletes. -/
theorem C7_cursor_and_counts (tm : String → ℤ) (key now : String)
    (feed : String → Nat → EventsPage) (db : DB) (hnow : now ≠ "") :
    (getSyncState db = none → sinceOf db = "1970-01-01T00:00:00Z") ∧
      ((getSyncState db).bind (fun s => s.lastEventTimestamp) = none →
        sinceOf db = "1970-01-01T00:00:00Z") ∧
      (∀ s ts, getSyncState db = some s → s.lastEventTimestamp = some ts → ts ≠ "" →
        sinceOf db = ts) ∧
      ∃ db2,
        incrementalSync tm (some key) now feed db =
            .ok (db2,
              { success := true
                eventsProcessed := (fetchAllEvents feed (sinceOf db)).length
                updated := ((fetchAllEvents feed (sinceOf db)).filter
                  (fun e => e.type == "updated" && e.workout.isSome)).length
                deleted := ((fetchAllEvents feed (sinceOf db)).filter
                  (fun e => e.type == "deleted" && truthyOptStr e.id)).length }) ∧
          ∃ st, getSyncState db2 = some st ∧
            st.lastSyncedAt = some now ∧ st.lastEventTimestamp = some now := by
  refine ⟨?_, ?_, ?_, ?_⟩
  · intro h; unfold sinceOf; rw [h]; rfl
  · intro h; unfold sinceOf; rw [h]; rfl
  · intro s ts hs hts htne
    unfold sinceOf
    rw [hs]
    simp [hts, jsOrStr, truthyOptStr, truthyStr, htne]
  · obtain ⟨h1, h2⟩ := processEvents_counts tm (fetchAllEvents feed (sinceOf db)) db
    refine ⟨updateSyncState { lastSyncedAt := some now, lastEventTimestamp := some now }
      (processEvents tm (fetchAllEvents feed (sinceOf db)) db).1, ?_, ?_⟩
    · unfold incrementalSync
      dsimp only
      rw [h1, h2]
    · exact getSyncState_after_update now _ hnow

/-- C7 witness: the theorem applied at a concrete truthy clock, an empty
feed and the empty store. -/
theorem C7_witness :
    ("T1" : String) ≠ "" ∧
      ∃ db2,
        incrementalSync tmZero (some "k") "T1"
            (fun _ _ => { page_count := 1, events := [] }) emptyDB =
            .ok (db2,
              { success := true
                eventsProcessed := (fetchAllEvents (fun _ _ => { page_count := 1, events := [] })
                  (sinceOf emptyDB)).length
                updated := ((fetchAllEvents (fun _ _ => { page_count := 1, events := [] })
                  (sinceOf emptyDB)).filter
                  (fun e => e.type == "updated" && e.workout.isSome)).length
                deleted := ((fetchAllEvents (fun _ _ => { page_count := 1, events := [] })
                  (sinceOf emptyDB)).filter
                  (fun e => e.type == "deleted" && truthyOptStr e.id)).length }) ∧
          ∃ st, getSyncState db2 = some st ∧
            st.lastSyncedAt = some "T1" ∧ st.lastEventTimestamp = some "T1" :=
  ⟨by decide,
    (C7_cursor_and_counts tmZero "k" "T1" (fun _ _ => { page_count := 1, events := [] })
      emptyDB (by decide)).2.2.2⟩

/-! ### C8 -/

/-- C8. With a non-empty shared secret configured, both HTTP routes
reject any request whose `Authorization` header is missing or differs
from `Bearer <secret>` with a 401; and when an authorized request's
underlying action fails, the response is a 500 whose body is the JSON
object `{error: message}`. -/
theorem C8_http_auth_and_errors (s : String) (hs : s ≠ "") :
    (∀ auth body pipeline incremental, auth ≠ some ("Bearer " ++ s) →
        syncRoute (some s) auth body pipeline incremental =
          { status := 401, body := .text "Unauthorized" }) ∧
      (∀ auth fullSync, auth ≠ some ("Bearer " ++ s) →
        fullSyncRoute (some s) auth fullSync =
          { status := 401, body := .text "Unauthorized" }) ∧
      (∀ body msg, syncRoute (some s) (some ("Bearer " ++ s)) body (.error msg) (.error msg) =
        { status := 500, body := .errJson msg }) ∧
      ∀ msg, fullSyncRoute (some s) (some ("Bearer " ++ s)) (.error msg) =
        { status := 500, body := .errJson msg } := by
  have hrej : ∀ auth, auth ≠ some ("Bearer " ++ s) →
      bearerRejects (some s) auth = true := by
    intro auth hauth
    simp [bearerRejects, truthyOptStr, truthyStr, hs, hauth]
  have hok : bearerRejects (some s) (some ("Bearer " ++ s)) = false := by
    simp [bearerRejects]
  refine ⟨?_, ?_, ?_, ?_⟩
  · intro auth body pipeline incremental hauth
    unfold syncRoute
    rw [hrej auth hauth]
    rfl
  · intro auth fullSync hauth
    unfold fullSyncRoute
    rw [hrej auth hauth]
    rfl
  · intro body msg
    unfold syncRoute
    rw [hok]
    simp only [Bool.false_eq_true, if_false, ite_self]
  · intro msg
    unfold fullSyncRoute
    rw [hok]
    rfl

/-- C8 witness: the theorem applied at a concrete secret, with a missing
header for the 401 clause and a failing action for the 500 clause. -/
theorem C8_witness :
    ("sec" : String) ≠ "" ∧
      syncRoute (some "sec") none none (.ok "r") (.ok "r") =
        { status := 401, body := .text "Unauthorized" } ∧
      fullSyncRoute (some "sec") (some ("Bearer " ++ "sec")) (.error "boom") =
        { status := 500, body := .errJson "boom" } :=
  ⟨by decide,
    (C8_http_auth_and_errors "sec" (by decide)).1 none none (.ok "r") (.ok "r") (by decide),
    (C8_http_auth_and_errors "sec" (by decide)).2.2.2 "boom"⟩

/-! ### C9 -/

/-- Successes plus failures partition a processed list. -/
theorem length_filterMap_add_filter (f : α → Option β) (l : List α) :
    (l.filterMap f).length + (l.filter (fun t => !(f t).isSome)).length = l.length := by
  induction l with
  | nil => rfl
  | cons x xs ih =>
    cases hf : f x <;> simp [List.filterMap_cons, List.filter_cons, hf] at ih ⊢ <;> omega

/-- One unfolding of the batch runner on a nonempty input. -/
theorem batchProcess_cons (proc : α → Except ε β) (c : Nat) (x : α) (xs : List α) :
    batchProcess proc c (x :: xs) =
      (((x :: xs.take (c - 1)).map proc).filterMap (fun r => r.toOption) ++
          (batchProcess proc c (xs.drop (c - 1))).1,
        (((x :: xs.take (c - 1)).map proc).filter (fun r => !r.toOption.isSome)).length +
          (batchProcess proc c (xs.drop (c - 1))).2) := by
  rw [batchProcess]

/-- Closed forms of the batch runner: the collected results are exactly
the successes in input order, and the error count is the number of
failures. These hold for every concurrency value of the model. -/
theorem batchProcess_closed (proc : α → Except ε β) (c : Nat) (items : List α) :
    (batchProcess proc c items).1 = items.filterMap (fun t => (proc t).toOption) ∧
      (batchProcess proc c items).2 =
        (items.filter (fun t => !(proc t).toOption.isSome)).length := by
  suffices h : ∀ n (items : List α), items.length ≤ n →
      (batchProcess proc c items).1 = items.filterMap (fun t => (proc t).toOption) ∧
        (batchProcess proc c items).2 =
          (items.filter (fun t => !(proc t).toOption.isSome)).length from
    h items.length items le_rfl
  intro n
  induction n with
  | zero =>
    intro items hlen
    have : items = [] := List.eq_nil_of_length_eq_zero (Nat.le_zero.mp hlen)
    subst this
    constructor <;> simp [batchProcess]
  | succ n ih =>
    intro items hlen
    match items with
    | [] => constructor <;> simp [batchProcess]
    | x :: xs =>
      obtain ⟨ih1, ih2⟩ := ih (xs.drop (c - 1)) (by
        simp only [List.length_cons] at hlen
        simp only [List.length_drop]
        omega)
      rw [batchProcess_cons]
      refine ⟨?_, ?_⟩ <;> dsimp only
      · rw [ih1]
        have hm : ((x :: xs.take (c - 1)).map proc).filterMap (fun r => r.toOption) =
            (x :: xs.take (c - 1)).filterMap (fun t => (proc t).toOption) := by
          rw [List.filterMap_map]
          rfl
        rw [hm, ← List.filterMap_append, List.cons_append, List.take_append_drop]
      · rw [ih2]
        have hm : (((x :: xs.take (c - 1)).map proc).filter
              (fun r => !r.toOption.isSome)).length =
            ((x :: xs.take (c - 1)).filter (fun t => !(proc t).toOption.isSome)).length := by
          rw [List.filter_map, List.length_map]
          rfl
        rw [hm, ← List.length_append, ← List.filter_append, List.cons_append,
          List.take_append_drop]

/-- C9. With a positive concurrency bound, the batch runner processes its
input in consecutive groups of at most `c` items: each nonempty input is
handled by dispatching the first group (the first `c` items) together,
collecting that group's successes and counting its failures before
recursing on the remainder. Overall, the collected results are exactly
the successes in input order, and `results.length + errors` equals the
number of items. -/
theorem C9_batch_runner (proc : α → Except ε β) (c : Nat) (items : List α) (hc : 0 < c) :
    (batchProcess proc c items).1 = items.filterMap (fun t => (proc t).toOption) ∧
      (batchProcess proc c items).1.length + (batchProcess proc c items).2 = items.length ∧
      ∀ x xs, items = x :: xs →
        batchProcess proc c items =
          (((items.take c).map proc).filterMap (fun r => r.toOption) ++
              (batchProcess proc c (items.drop c)).1,
            (((items.take c).map proc).filter (fun r => !r.toOption.isSome)).length +
              (batchProcess proc c (items.drop c)).2) := by
  obtain ⟨h1, h2⟩ := batchProcess_closed proc c items
  refine ⟨h1, ?_, ?_⟩
  · rw [h1, h2]
    exact length_filterMap_add_filter _ items
  · intro x xs hitems
    subst hitems
    obtain ⟨k, rfl⟩ : ∃ k, c = k + 1 := ⟨c - 1, by omega⟩
    rw [batchProcess_cons]
    simp only [Nat.add_sub_cancel, List.take_succ_cons, List.drop_succ_cons]

/-- C9 witness: the theorem applied to a concrete processor that fails on
odd numbers, with concurrency 2 over five items. -/
theorem C9_witness :
    0 < 2 ∧
      (batchProcess (fun n : Nat => if n % 2 == 0 then (Except.ok n : Except String Nat)
            else Except.error "odd") 2 [0, 1, 2, 3, 4]).1.length +
          (batchProcess (fun n : Nat => if n % 2 == 0 then (Except.ok n : Except String Nat)
            else Except.error "odd") 2 [0, 1, 2, 3, 4]).2 =
        ([0, 1, 2, 3, 4] : List Nat).length :=
  ⟨by decide,
    (C9_batch_runner (fun n : Nat => if n % 2 == 0 then (Except.ok n : Except String Nat)
      else Except.error "odd") 2 [0, 1, 2, 3, 4] (by decide)).2.1⟩
